import Mathlib

/-!
Shallow embedding of the log-parsing and analysis core of src/log_analyzer.py
(class LogAnalyzer).  Text is modelled as Lean String (a Python str is a
sequence of unicode characters); regular-expression matching is modelled by an
executable backtracking matcher specialised to the shape of the five registry
patterns, which are all plain sequences of literal characters and
character-class repetitions (no alternation, no nested groups).  Python
re.match anchors at the start of the string and does NOT require the pattern
to consume the whole string; the matcher below has exactly that prefix
semantics, and a separate full-match variant models re.fullmatch.
Character classes are modelled at ASCII fidelity: the backslash-s class is
the six ASCII whitespace characters, backslash-d is the ten ASCII digits,
backslash-w is ASCII alphanumerics plus underscore, and the dot is any
character except the newline.
-/

namespace LogAnalyzer

/-- ASCII model of the Python regex whitespace class. -/
def isPySpace (c : Char) : Bool :=
  c == ' ' || c == '\t' || c == '\n' || c == '\r' || c == '\x0b' || c == '\x0c'

/-- The regex class of non-whitespace characters. -/
def nonSpace (c : Char) : Bool := !(isPySpace c)

/-- The regex dot: any character except newline (re.DOTALL is not used). -/
def dotC (c : Char) : Bool := c != '\n'

/-- ASCII model of the regex digit class. -/
def digitC (c : Char) : Bool := c.isDigit

/-- ASCII model of the regex word class. -/
def wordC (c : Char) : Bool := c.isAlphanum || c == '_'

/-- One element of a pattern: a character-class repetition with a lower and
an optional upper bound on the repeat count, a greedy or lazy preference
order, and an optional capture-group index.  A literal character is the
special case of class equal-to-c repeated exactly once. -/
structure PatPiece where
  cls : Char → Bool
  lo : Nat
  hi : Option Nat
  lzy : Bool
  grp : Option Nat

/-- Length of the maximal prefix of s whose characters all satisfy cls.
A class repetition can consume exactly the prefixes of this run. -/
def countRun (cls : Char → Bool) : List Char → Nat
  | [] => 0
  | c :: cs => if cls c then countRun cls cs + 1 else 0

/-- Candidate consumption counts for one piece, in the preference order of
the Python backtracking engine: a lazy repetition tries the shortest count
first, a greedy one the longest. -/
def cands (lo top : Nat) (lzy : Bool) : List Nat :=
  if lzy then List.range' lo (top + 1 - lo) else (List.range' lo (top + 1 - lo)).reverse

/-- First result of f over the candidate list, in order. -/
def firstSome (f : Nat → Option α) : List Nat → Option α
  | [] => none
  | n :: ns =>
    match f n with
    | some r => some r
    | none => firstSome f ns

/-- Upper bound on the consumption count of a piece given the run length. -/
def pieceTop (p : PatPiece) (run : Nat) : Nat :=
  match p.hi with
  | none => run
  | some h => min h run

/-- Backtracking matcher with the prefix semantics of Python re.match:
returns the per-piece consumption counts of the first successful match in
backtracking order, or none.  Trailing input after the last piece is
allowed. -/
def matchPieces : List PatPiece → List Char → Option (List Nat)
  | [], _ => some []
  | p :: ps, s =>
    firstSome (fun n => (matchPieces ps (s.drop n)).map (fun ns => n :: ns))
      (cands p.lo (pieceTop p (countRun p.cls s)) p.lzy)

/-- Variant with the semantics of re.fullmatch: the pieces must consume the
entire string. -/
def fullMatchPieces : List PatPiece → List Char → Option (List Nat)
  | [], s => if s.isEmpty then some [] else none
  | p :: ps, s =>
    firstSome (fun n => (fullMatchPieces ps (s.drop n)).map (fun ns => n :: ns))
      (cands p.lo (pieceTop p (countRun p.cls s)) p.lzy)

/-- Declarative meaning of one match: ns lists, piece by piece, how many
characters each piece consumed; each count respects the bounds of its piece
and the consumed characters all lie in its class. -/
def Valid : List PatPiece → List Char → List Nat → Prop
  | [], _, ns => ns = []
  | _ :: _, _, [] => False
  | p :: ps, s, n :: ns =>
    p.lo ≤ n ∧ (∀ h, p.hi = some h → n ≤ h) ∧ n ≤ s.length ∧
      (s.take n).all p.cls = true ∧ Valid ps (s.drop n) ns

/-- The substring each piece consumed, tagged with its capture group. -/
def pieceSlices : List PatPiece → List Nat → List Char → List (Option Nat × List Char)
  | p :: ps, n :: ns, s => (p.grp, s.take n) :: pieceSlices ps ns (s.drop n)
  | _, _, _ => []

/-- Number of capture groups of a pattern. -/
def numGroups (ps : List PatPiece) : Nat :=
  ps.foldl (fun acc p => match p.grp with | some g => max acc (g + 1) | none => acc) 0

/-- Captured text of group g: concatenation of the slices tagged g. -/
def groupStr (slices : List (Option Nat × List Char)) (g : Nat) : String :=
  (((slices.filter (fun q => q.1 == some g)).map (fun q => q.2)).flatten).asString

/-- The capture-group list of a successful match, as Python match.groups(). -/
def capsOf (ps : List PatPiece) (ns : List Nat) (s : List Char) : List String :=
  (List.range (numGroups ps)).map (groupStr (pieceSlices ps ns s))

/-- re.match returning the groups of the first match, or none. -/
def pyMatchCaps (ps : List PatPiece) (s : List Char) : Option (List String) :=
  (matchPieces ps s).map (fun ns => capsOf ps ns s)

/-- A literal character of a pattern. -/
def litP (c : Char) : PatPiece := ⟨(· == c), 1, some 1, false, none⟩

/-- A greedy capturing one-or-more repetition of a class. -/
def grpPlus (cls : Char → Bool) (g : Nat) : PatPiece := ⟨cls, 1, none, false, some g⟩

/-- A greedy non-capturing one-or-more repetition of a class. -/
def plusP (cls : Char → Bool) : PatPiece := ⟨cls, 1, none, false, none⟩

/-- A lazy capturing zero-or-more repetition of a class. -/
def lazyStarG (cls : Char → Bool) (g : Nat) : PatPiece := ⟨cls, 0, none, true, some g⟩

/-- An exactly-n repetition of a class inside capture group g. -/
def repN (cls : Char → Bool) (n : Nat) (g : Option Nat) : PatPiece := ⟨cls, n, some n, false, g⟩

/-- A literal character inside capture group g. -/
def litG (c : Char) (g : Nat) : PatPiece := ⟨(· == c), 1, some 1, false, some g⟩

/-- Format names and the auto selector (the string keys used by the code). -/
def AUTO : String := "auto"

def APACHE : String := "apache"

def NGINX : String := "nginx"

def COMMON : String := "common"

def COMBINED : String := "combined"

def CUSTOM : String := "custom"

/-- The part shared by the apache and common regexes from the timestamp
group onward: bracketed lazy timestamp group, quoted lazy request group,
then two digit groups separated by spaces. -/
def webTail : List PatPiece :=
  [lazyStarG dotC 1, litP ']', litP ' ', litP '"', lazyStarG dotC 2, litP '"', litP ' ',
    grpPlus digitC 3, litP ' ', grpPlus digitC 4]

/-- The apache pattern of the registry, piece by piece: ip group, two
non-space fields, then the shared tail. -/
def apachePieces : List PatPiece :=
  [grpPlus nonSpace 0, litP ' ', plusP nonSpace, litP ' ', plusP nonSpace, litP ' ',
    litP '['] ++ webTail

/-- The common pattern: as apache but with the two middle fields fixed to
literal dashes. -/
def commonPieces : List PatPiece :=
  [grpPlus nonSpace 0, litP ' ', litP '-', litP ' ', litP '-', litP ' ', litP '['] ++ webTail

/-- The nginx pattern: the common pattern followed by quoted referer and
user-agent groups. -/
def nginxPieces : List PatPiece :=
  commonPieces ++
    [litP ' ', litP '"', lazyStarG dotC 5, litP '"', litP ' ', litP '"',
      lazyStarG dotC 6, litP '"']

/-- The combined pattern: the source writes the same regex string as nginx. -/
def combinedPieces : List PatPiece := nginxPieces

/-- The custom pattern: a bracketed ISO-like date-time group, a word-class
level group, a colon, a space and a free-text message group. -/
def customPieces : List PatPiece :=
  [repN digitC 4 (some 0), litG '-' 0, repN digitC 2 (some 0), litG '-' 0,
    repN digitC 2 (some 0), litG ' ' 0, repN digitC 2 (some 0), litG ':' 0,
    repN digitC 2 (some 0), litG ':' 0, repN digitC 2 (some 0),
    litP ' ', grpPlus wordC 1, litP ':', litP ' ', grpPlus dotC 2]

/-- The format registry in its fixed iteration order (a Python dict keeps
insertion order, and auto-detection iterates it in that order). -/
def log_patterns : List (String × List PatPiece) :=
  [(APACHE, apachePieces), (NGINX, nginxPieces), (COMMON, commonPieces),
    (COMBINED, combinedPieces), (CUSTOM, customPieces)]

/-!
Timestamp parsing.  parse_timestamp tries four strptime layouts in a fixed
order, catching the ValueError of a failed attempt and returning None when
all fail.  The scanners below follow the token regexes of the CPython
_strptime module for the directives these four layouts use (alternation
order included), a whitespace character of a layout matches a run of one or
more whitespace characters, and the final datetime construction validates
the field ranges (day against the month length, seconds at most 59, a
timezone offset strictly below 24 hours).  Month names are matched case
insensitively at ASCII fidelity; the fractional part of a timezone offset
is accepted and ignored.
-/

/-- A Python datetime value: calendar fields plus an optional timezone
offset in seconds east of UTC (none models a naive datetime). -/
structure PyDateTime where
  year : Nat
  month : Nat
  day : Nat
  hour : Nat
  minute : Nat
  second : Nat
  microsecond : Nat
  tzs : Option Int
deriving DecidableEq

/-- Decimal value of an ASCII digit. -/
def dv (c : Char) : Nat := c.toNat - 48

/-- An ASCII digit other than zero. -/
def isNZDigit (c : Char) : Bool := c.isDigit && c != '0'

/-- One literal character of a layout. -/
def scanLit (c : Char) : List Char → Option (List Char)
  | d :: r => if d == c then some r else none
  | [] => none

/-- A whitespace character of a layout matches one or more whitespace
characters of the input. -/
def scanWS : List Char → Option (List Char)
  | c :: r => if isPySpace c then some (r.dropWhile isPySpace) else none
  | [] => none

/-- The day directive: 3[0-1], [1-2] digit, 0[1-9], [1-9] or space[1-9],
tried in that order. -/
def scanDay : List Char → Option (Nat × List Char)
  | c1 :: c2 :: r =>
    if c1 == '3' && (c2 == '0' || c2 == '1') then some (30 + dv c2, r)
    else if (c1 == '1' || c1 == '2') && c2.isDigit then some (dv c1 * 10 + dv c2, r)
    else if c1 == '0' && isNZDigit c2 then some (dv c2, r)
    else if isNZDigit c1 then some (dv c1, c2 :: r)
    else if c1 == ' ' && isNZDigit c2 then some (dv c2, r)
    else none
  | [c1] => if isNZDigit c1 then some (dv c1, []) else none
  | [] => none

/-- The numeric month directive: 1[0-2], 0[1-9] or [1-9]. -/
def scanMonthNum : List Char → Option (Nat × List Char)
  | c1 :: c2 :: r =>
    if c1 == '1' && (c2 == '0' || c2 == '1' || c2 == '2') then some (10 + dv c2, r)
    else if c1 == '0' && isNZDigit c2 then some (dv c2, r)
    else if isNZDigit c1 then some (dv c1, c2 :: r)
    else none
  | [c1] => if isNZDigit c1 then some (dv c1, []) else none
  | [] => none

/-- The hour directive: 2[0-3], [0-1] digit, or one digit. -/
def scanHour : List Char → Option (Nat × List Char)
  | c1 :: c2 :: r =>
    if c1 == '2' && (c2 == '0' || c2 == '1' || c2 == '2' || c2 == '3') then some (20 + dv c2, r)
    else if (c1 == '0' || c1 == '1') && c2.isDigit then some (dv c1 * 10 + dv c2, r)
    else if c1.isDigit then some (dv c1, c2 :: r)
    else none
  | [c1] => if c1.isDigit then some (dv c1, []) else none
  | [] => none

/-- The minute directive: [0-5] digit, or one digit. -/
def scanMinute : List Char → Option (Nat × List Char)
  | c1 :: c2 :: r =>
    if c1.isDigit && c1 ≤ '5' && c2.isDigit then some (dv c1 * 10 + dv c2, r)
    else if c1.isDigit then some (dv c1, c2 :: r)
    else none
  | [c1] => if c1.isDigit then some (dv c1, []) else none
  | [] => none

/-- The second directive: 6[0-1], [0-5] digit, or one digit (leap seconds
pass the scan and are rejected by the datetime construction). -/
def scanSecond : List Char → Option (Nat × List Char)
  | c1 :: c2 :: r =>
    if c1 == '6' && (c2 == '0' || c2 == '1') then some (60 + dv c2, r)
    else if c1.isDigit && c1 ≤ '5' && c2.isDigit then some (dv c1 * 10 + dv c2, r)
    else if c1.isDigit then some (dv c1, c2 :: r)
    else none
  | [c1] => if c1.isDigit then some (dv c1, []) else none
  | [] => none

/-- The year directive: exactly four digits. -/
def scanYear4 : List Char → Option (Nat × List Char)
  | c1 :: c2 :: c3 :: c4 :: r =>
    if c1.isDigit && c2.isDigit && c3.isDigit && c4.isDigit then
      some (((dv c1 * 10 + dv c2) * 10 + dv c3) * 10 + dv c4, r)
    else none
  | _ => none

/-- The microsecond directive: one to six digits, scaled to microseconds. -/
def scanMicro (s : List Char) : Option (Nat × List Char) :=
  let ds := (s.takeWhile Char.isDigit).take 6
  if ds.isEmpty then none
  else some ((ds.foldl (fun a c => a * 10 + dv c) 0) * 10 ^ (6 - ds.length), s.drop ds.length)

/-- The abbreviated month names of the C locale, in month order. -/
def monthNames : List String :=
  ["jan", "feb", "mar", "apr", "may", "jun", "jul", "aug", "sep", "oct", "nov", "dec"]

/-- The month-name directive: three letters, case insensitive. -/
def scanMonthName : List Char → Option (Nat × List Char)
  | a :: b :: c :: r =>
    let w := ([a.toLower, b.toLower, c.toLower]).asString
    match monthNames.findIdx? (fun m => m == w) with
    | some i => some (i + 1, r)
    | none => none
  | _ => none

/-- Seconds-and-fraction tail of a timezone offset: optional colon, two
digits with the first at most five, then an optional fraction of one to six
digits, which is ignored. -/
def scanZTail : List Char → (Int × List Char) → (Int × List Char)
  | ':' :: s1 :: s2 :: r, (base, keep) =>
    if s1.isDigit && s1 ≤ '5' && s2.isDigit then
      scanZFrac r (base + (dv s1 * 10 + dv s2 : Nat), keep) (base + (dv s1 * 10 + dv s2 : Nat))
    else (base, keep)
  | s1 :: s2 :: r, (base, keep) =>
    if s1.isDigit && s1 ≤ '5' && s2.isDigit then
      scanZFrac r (base + (dv s1 * 10 + dv s2 : Nat), keep) (base + (dv s1 * 10 + dv s2 : Nat))
    else (base, keep)
  | _, (base, keep) => (base, keep)
where
  /-- After offset seconds, an optional dot-fraction; on a malformed
  fraction the seconds part still stands with the fraction unconsumed. -/
  scanZFrac : List Char → (Int × List Char) → Int → (Int × List Char)
  | '.' :: r, _, tot =>
    let ds := (r.takeWhile Char.isDigit).take 6
    if ds.isEmpty then (tot, '.' :: r) else (tot, r.drop ds.length)
  | r, _, tot => (tot, r)

/-- The timezone directive: a capital Z, or a sign, two hour digits, an
optional colon, two minute digits with the first at most five, and an
optional seconds tail.  Returns the consumed offset in seconds east. -/
def scanZ : List Char → Option (Int × List Char)
  | 'Z' :: r => some (0, r)
  | sgn :: h1 :: h2 :: rest =>
    if (sgn == '+' || sgn == '-') && h1.isDigit && h2.isDigit then
      let h : Nat := dv h1 * 10 + dv h2
      let afterColon : List Char := match rest with
        | ':' :: r2 => r2
        | r2 => r2
      match afterColon with
      | m1 :: m2 :: r3 =>
        if m1.isDigit && m1 ≤ '5' && m2.isDigit then
          let base : Int := (h * 3600 + (dv m1 * 10 + dv m2) * 60 : Nat)
          let (tot, r4) := scanZTail r3 (base, r3)
          some (if sgn == '-' then -tot else tot, r4)
        else none
      | _ => none
    else none
  | _ => none

/-- Whether a year is a leap year. -/
def isLeap (y : Nat) : Bool := y % 4 == 0 && (y % 100 != 0 || y % 400 == 0)

/-- Number of days of a month. -/
def daysInMonth (y m : Nat) : Nat :=
  if m == 2 then (if isLeap y then 29 else 28)
  else if m == 4 || m == 6 || m == 9 || m == 11 then 30
  else 31

/-- The datetime constructor: validates every field range and the timezone
bound, returning none where Python raises ValueError. -/
def mkDateTime (y mo d h mi s us : Nat) (tz : Option Int) : Option PyDateTime :=
  if 1 ≤ y ∧ y ≤ 9999 ∧ 1 ≤ mo ∧ mo ≤ 12 ∧ 1 ≤ d ∧ d ≤ daysInMonth y mo ∧
      h ≤ 23 ∧ mi ≤ 59 ∧ s ≤ 59 ∧ us ≤ 999999 ∧
      (∀ o, tz = some o → -86400 < o ∧ o < 86400) then
    some ⟨y, mo, d, h, mi, s, us, tz⟩
  else none

/-- Layout 1 of parse_timestamp: day, month name, year, time, timezone. -/
def strp_dbY_HMS_z (str : String) : Option PyDateTime := do
  let (d, r) ← scanDay str.data
  let r ← scanLit '/' r
  let (mo, r) ← scanMonthName r
  let r ← scanLit '/' r
  let (y, r) ← scanYear4 r
  let r ← scanLit ':' r
  let (h, r) ← scanHour r
  let r ← scanLit ':' r
  let (mi, r) ← scanMinute r
  let r ← scanLit ':' r
  let (s, r) ← scanSecond r
  let r ← scanWS r
  let (tz, r) ← scanZ r
  if r.isEmpty then mkDateTime y mo d h mi s 0 (some tz) else none

/-- Layout 2: as layout 1 but without the timezone, giving a naive value. -/
def strp_dbY_HMS (str : String) : Option PyDateTime := do
  let (d, r) ← scanDay str.data
  let r ← scanLit '/' r
  let (mo, r) ← scanMonthName r
  let r ← scanLit '/' r
  let (y, r) ← scanYear4 r
  let r ← scanLit ':' r
  let (h, r) ← scanHour r
  let r ← scanLit ':' r
  let (mi, r) ← scanMinute r
  let r ← scanLit ':' r
  let (s, r) ← scanSecond r
  if r.isEmpty then mkDateTime y mo d h mi s 0 none else none

/-- Layout 3: four-digit year, month, day, then the time of day. -/
def strp_Ymd_HMS (str : String) : Option PyDateTime := do
  let (y, r) ← scanYear4 str.data
  let r ← scanLit '-' r
  let (mo, r) ← scanMonthNum r
  let r ← scanLit '-' r
  let (d, r) ← scanDay r
  let r ← scanWS r
  let (h, r) ← scanHour r
  let r ← scanLit ':' r
  let (mi, r) ← scanMinute r
  let r ← scanLit ':' r
  let (s, r) ← scanSecond r
  if r.isEmpty then mkDateTime y mo d h mi s 0 none else none

/-- Layout 4: as layout 3 plus a dot and fractional seconds. -/
def strp_Ymd_HMS_f (str : String) : Option PyDateTime := do
  let (y, r) ← scanYear4 str.data
  let r ← scanLit '-' r
  let (mo, r) ← scanMonthNum r
  let r ← scanLit '-' r
  let (d, r) ← scanDay r
  let r ← scanWS r
  let (h, r) ← scanHour r
  let r ← scanLit ':' r
  let (mi, r) ← scanMinute r
  let r ← scanLit ':' r
  let (s, r) ← scanSecond r
  let r ← scanLit '.' r
  let (us, r) ← scanMicro r
  if r.isEmpty then mkDateTime y mo d h mi s us none else none

/-- parse_timestamp: the four layouts are tried in their fixed order, the
first success wins, and the result is none when all fail. -/
def parse_timestamp (str : String) : Option PyDateTime :=
  match strp_dbY_HMS_z str with
  | some t => some t
  | none =>
    match strp_dbY_HMS str with
    | some t => some t
    | none =>
      match strp_Ymd_HMS str with
      | some t => some t
      | none => strp_Ymd_HMS_f str

/-!
Entries.  A parsed or unparsed log line is a Python dict; it is modelled as
a record with one Option field per possible key, where none means the key
is absent.  The timestamp, referer and user_agent keys can be present with
value None, hence their doubled Option.
-/

/-- One parsed (or unparsed) log line, as built by parse_log_line. -/
structure Entry where
  raw_line : String
  parsed : Bool
  format : Option String := none
  ip : Option String := none
  timestamp : Option (Option PyDateTime) := none
  request : Option String := none
  status : Option Int := none
  size : Option Int := none
  method : Option String := none
  path : Option String := none
  protocol : Option String := none
  referer : Option (Option String) := none
  user_agent : Option (Option String) := none
  level : Option String := none
  message : Option String := none
deriving DecidableEq

/-- The unparsed result shape: only the raw line and a false parsed flag. -/
def unparsedEntry (line : String) : Entry := { raw_line := line, parsed := false }

/-- Python str.isdigit at ASCII fidelity: nonempty and all digits. -/
def pyIsdigit (s : String) : Bool := !s.data.isEmpty && s.data.all Char.isDigit

/-- Decimal value of an all-digit string. -/
def natOfDigits (s : List Char) : Nat := s.foldl (fun a c => a * 10 + dv c) 0

/-- The guarded conversion of a captured field: int(g) if g.isdigit() else 0. -/
def pyIntOr0 (s : String) : Int := if pyIsdigit s then (natOfDigits s.data : Int) else 0

/-- Python str.split with no argument: split on runs of whitespace,
discarding empty pieces. -/
def pySplit (s : String) : List String :=
  (go s.data []).map List.asString
where
  /-- Collects the maximal nonspace words; acc holds the current word in
  reverse. -/
  go : List Char → List Char → List (List Char)
  | [], acc => if acc.isEmpty then [] else [acc.reverse]
  | c :: cs, acc =>
    if isPySpace c then
      if acc.isEmpty then go cs [] else acc.reverse :: go cs []
    else go cs (c :: acc)

/-- The default HTTP protocol filled in when the request has no third
token. -/
def HTTP11 : String := "HTTP/1.1"

/-- extract_fields: maps the captured groups of a successful match into the
entry fields, given the matched format name. -/
def extract_fields (groups : List String) (format_name : String) (raw_line : String) : Entry :=
  let base : Entry := { raw_line := raw_line, parsed := true, format := some format_name }
  if format_name = APACHE ∨ format_name = NGINX ∨ format_name = COMMON ∨
      format_name = COMBINED then
    let g2 := groups.getD 2 ""
    let e0 : Entry :=
      { base with
        ip := some (groups.getD 0 "")
        timestamp := some (parse_timestamp (groups.getD 1 ""))
        request := some g2
        status := some (pyIntOr0 (groups.getD 3 ""))
        size := some (pyIntOr0 (groups.getD 4 "")) }
    let parts := pySplit g2
    let e1 : Entry :=
      if 2 ≤ parts.length then
        { e0 with
          method := some (parts.getD 0 "")
          path := some (parts.getD 1 "")
          protocol := some (if 2 < parts.length then parts.getD 2 "" else HTTP11) }
      else e0
    if (format_name = NGINX ∨ format_name = COMBINED) ∧ 5 < groups.length then
      let g5 := groups.getD 5 ""
      { e1 with
        referer := some (if g5 = "-" then none else some g5)
        user_agent := some (if 6 < groups.length then some (groups.getD 6 "") else none) }
    else e1
  else if format_name = CUSTOM then
    { base with
      timestamp := some (parse_timestamp (groups.getD 0 ""))
      level := some (groups.getD 1 "")
      message := some (groups.getD 2 "") }
  else base

/-- Auto-detection: try the registry patterns in order, returning the name
and groups of the first that matches. -/
def findMatch : List (String × List PatPiece) → List Char → Option (String × List String)
  | [], _ => none
  | (name, ps) :: rest, s =>
    match pyMatchCaps ps s with
    | some caps => some (name, caps)
    | none => findMatch rest s

/-- parse_log_line: auto-detect or force one format; an unmatched line (or
an unknown selector) yields the unparsed entry shape. -/
def parse_log_line (line : String) (log_format : String) : Entry :=
  if log_format = AUTO then
    match findMatch log_patterns line.data with
    | some (name, caps) => extract_fields caps name line
    | none => unparsedEntry line
  else
    match log_patterns.lookup log_format with
    | some ps =>
      match pyMatchCaps ps line.data with
      | some caps => extract_fields caps log_format line
      | none => unparsedEntry line
    | none => unparsedEntry line

/-!
Aggregation.  collections.Counter over a list keeps its keys in order of
first appearance, and most_common sorts stably by descending count, so ties
keep first-appearance order; most_common(10) truncates to ten entries.
This is modelled by first-occurrence deduplication followed by a stable
insertion sort on the count.  Python floats are modelled as exact
rationals.  analyze_entries can raise: comparing a timezone-aware datetime
with a naive one (min or max over mixed timestamps) is a TypeError in
Python, so the function is embedded with an Except result, where the error
carries the exception text.
-/

/-- The keys of a list in order of first appearance (Counter key order):
keep the head, then the deduplication of the tail with the head removed. -/
def dedupFirst [DecidableEq α] : List α → List α
  | [] => []
  | x :: xs => x :: (dedupFirst xs).filter (fun y => y ≠ x)

/-- Insert a key into a count-sorted list, before the first key of strictly
smaller count: keys inserted earlier stay in front on ties. -/
def insertCD (cnt : α → Nat) (x : α) : List α → List α
  | [] => [x]
  | y :: ys => if cnt y ≤ cnt x then x :: y :: ys else y :: insertCD cnt x ys

/-- Stable sort by descending count: an insertion sort that keeps the
earlier of two equal-count keys first. -/
def sortCD (cnt : α → Nat) : List α → List α
  | [] => []
  | x :: xs => insertCD cnt x (sortCD cnt xs)

/-- Counter(xs).most_common(k) (or most_common() when k is none): pairs of
key and count, sorted by descending count, ties in first-appearance order,
truncated to k entries when k is given. -/
def mostCommon [DecidableEq α] (xs : List α) (k : Option Nat) : List (α × Nat) :=
  let sorted := sortCD (fun y => xs.count y) (dedupFirst xs)
  let cut := match k with
    | some n => sorted.take n
    | none => sorted
  cut.map (fun y => (y, xs.count y))

/-- The instant key of a datetime, in microseconds: days of the proleptic
Gregorian calendar, then the time of day, with an aware value shifted by
its offset.  Python orders naive values lexicographically by field and
aware values by instant; both orders agree with this key on values of equal
kind. -/
def dtKey (t : PyDateTime) : Int :=
  let y1 : Int := (t.year : Int) - (if t.month ≤ 2 then 1 else 0)
  let era : Int := y1.fdiv 400
  let yoe : Int := y1 - era * 400
  let mp : Int := ((t.month : Int) + 9) % 12
  let doy : Int := (153 * mp + 2).fdiv 5 + (t.day : Int) - 1
  let doe : Int := yoe * 365 + yoe.fdiv 4 - yoe.fdiv 100 + doy
  let days : Int := era * 146097 + doe
  let naive : Int :=
    ((days * 86400 + (t.hour : Int) * 3600 + (t.minute : Int) * 60 + (t.second : Int)) * 1000000)
      + (t.microsecond : Int)
  match t.tzs with
  | some off => naive - off * 1000000
  | none => naive

/-- The TypeError text of a naive-versus-aware datetime comparison. -/
def tzTypeError : String := "TypeError: cannot compare offset-naive and offset-aware datetimes"

/-- Python datetime comparison: a TypeError when exactly one side is aware,
otherwise the key order. -/
def pyDTlt (a b : PyDateTime) : Except String Bool :=
  if a.tzs.isSome = b.tzs.isSome then .ok (decide (dtKey a < dtKey b))
  else .error tzTypeError

/-- Python min over a nonempty datetime list: scan with the less-than of
each element against the current minimum. -/
def pyMinDT (t : PyDateTime) (ts : List PyDateTime) : Except String PyDateTime :=
  ts.foldlM (fun m x => do
    let lt ← pyDTlt x m
    pure (if lt then x else m)) t

/-- Python max over a nonempty datetime list. -/
def pyMaxDT (t : PyDateTime) (ts : List PyDateTime) : Except String PyDateTime :=
  ts.foldlM (fun m x => do
    let lt ← pyDTlt m x
    pure (if lt then x else m)) t

/-- Python datetime subtraction, in microseconds; mixing a naive and an
aware value is a TypeError. -/
def pyDTsub (a b : PyDateTime) : Except String Int :=
  if a.tzs.isSome = b.tzs.isSome then .ok (dtKey a - dtKey b)
  else .error "TypeError: cannot subtract offset-naive and offset-aware datetimes"

/-- The response_sizes sub-dict of the analysis. -/
structure ResponseSizes where
  total_bytes : Int
  avg_size : ℚ
  max_size : Int
  min_size : Int

/-- The time_range sub-dict: start, end and their difference in
microseconds (the code stores str(end - start); the duration value itself
is modelled). -/
structure TimeRange where
  tstart : PyDateTime
  tend : PyDateTime
  duration : Int

/-- The analysis dict: every key optional, absent keys modelled as none.
analyze_entries of an empty batch returns the empty dict. -/
structure AnalysisResult where
  total_entries : Option Nat := none
  parsed_entries : Option Nat := none
  parse_rate : Option ℚ := none
  top_ips : Option (List (String × Nat)) := none
  unique_ips : Option Nat := none
  status_codes : Option (List (Int × Nat)) := none
  http_methods : Option (List (String × Nat)) := none
  top_paths : Option (List (String × Nat)) := none
  response_sizes : Option ResponseSizes := none
  time_range : Option TimeRange := none
  traffic_by_hour : Option (List (Nat × Nat)) := none

/-- The ip values of the parsed entries carrying an ip field, in entry
order. -/
def ipsOf (entries : List Entry) : List String :=
  (entries.filter (fun e => e.parsed)).filterMap (fun e => e.ip)

/-- The path values of the parsed entries carrying a path field. -/
def pathsOf (entries : List Entry) : List String :=
  (entries.filter (fun e => e.parsed)).filterMap (fun e => e.path)

/-- analyze_entries.  Follows the code line by line: the empty batch
returns the empty dict; the counting block always runs; the frequency and
size and time blocks only run when parsed entries exist, and the size and
time sub-dicts only when their value lists are nonempty.  The min and max
over the timestamps propagate the TypeError of a mixed naive-and-aware
batch. -/
def analyze_entries (entries : List Entry) : Except String AnalysisResult :=
  if entries.isEmpty then .ok {}
  else
    let parsedE := entries.filter (fun e => e.parsed)
    let a0 : AnalysisResult :=
      { total_entries := some entries.length
        parsed_entries := some parsedE.length
        parse_rate := some ((parsedE.length : ℚ) / (entries.length : ℚ) * 100) }
    if parsedE.isEmpty then .ok a0
    else
      let ips := parsedE.filterMap (fun e => e.ip)
      let statuses := parsedE.filterMap (fun e =>
        e.status.bind (fun st => if st = 0 then none else some st))
      let methods := parsedE.filterMap (fun e => e.method)
      let paths := parsedE.filterMap (fun e => e.path)
      let a1 : AnalysisResult :=
        { a0 with
          top_ips := some (mostCommon ips (some 10))
          unique_ips := some (dedupFirst ips).length
          status_codes := some (mostCommon statuses none)
          http_methods := some (mostCommon methods none)
          top_paths := some (mostCommon paths (some 10)) }
      let sizes := parsedE.filterMap (fun e =>
        e.size.bind (fun z => if z = 0 then none else some z))
      let a2 : AnalysisResult :=
        match sizes with
        | [] => a1
        | z :: zs =>
          { a1 with
            response_sizes := some
              { total_bytes := sizes.sum
                avg_size := ((sizes.sum : ℚ) / (sizes.length : ℚ))
                max_size := zs.foldl max z
                min_size := zs.foldl min z } }
      let timestamps := parsedE.filterMap (fun e => e.timestamp.bind id)
      match timestamps with
      | [] => .ok a2
      | t :: ts =>
        match pyMinDT t ts with
        | .error msg => .error msg
        | .ok mn =>
          match pyMaxDT t ts with
          | .error msg => .error msg
          | .ok mx =>
            match pyDTsub mx mn with
            | .error msg => .error msg
            | .ok dur =>
              .ok { a2 with
                time_range := some ⟨mn, mx, dur⟩
                traffic_by_hour := some (mostCommon ((t :: ts).map (fun u => u.hour)) none) }

/-!
Anomaly detection.  Evaluated per parsed entry, in input order, with no
cross-entry state.  The suspicious-path rules are modelled as the list of
search predicates of the seven source regexes: a dollar-anchored suffix
match for the php rule (where the anchor also matches just before one
trailing newline, as in Python), and case-insensitive substring searches
for the rest.  Anomaly type and severity keep their source string values.
-/

/-- An anomaly record: type, severity, message and the triggering entry. -/
structure Anomaly where
  type : String
  severity : String
  message : String
  entry : Entry
deriving DecidableEq

/-- ASCII lowering of a string (model of re.IGNORECASE for the
ASCII-letter-only suspicious patterns). -/
def lowerStr (s : String) : List Char := s.data.map Char.toLower

/-- Whether pat occurs as a contiguous sublist of hay (re.search of a
literal pattern). -/
def containsSub (pat hay : List Char) : Bool :=
  hay.tails.any (fun t => pat.isPrefixOf t)

/-- Case-insensitive substring search for one literal pattern. -/
def searchCI (pat : String) (path : String) : Bool :=
  containsSub (lowerStr pat) (lowerStr path)

/-- The php-suffix rule: a dot-php suffix, or the same just before one
final newline (the regex dollar in Python). -/
def searchPhpSuffix (path : String) : Bool :=
  let l := lowerStr path
  (lowerStr ".php").isSuffixOf l ||
    (lowerStr ".php\n").isSuffixOf l

/-- The fixed suspicious-path rules, in their source order. -/
def suspicious_patterns : List (String → Bool) :=
  [searchPhpSuffix, searchCI "admin", searchCI "wp-admin", searchCI ".env",
    searchCI "backup", searchCI "config", searchCI ".git"]

/-- Anomaly type tags. -/
def ERROR_STATUS : String := "error_status"

def LARGE_RESPONSE : String := "large_response"

def SUSPICIOUS_PATH : String := "suspicious_path"

/-- Severity tags. -/
def HIGH : String := "high"

def MEDIUM : String := "medium"

/-- The fallback ip text of an error message. -/
def UNKNOWN : String := "unknown"

/-- The anomalies of one parsed entry, in emission order: the error-status
check, the large-response check, then the suspicious-path loop, which
breaks after its first matching rule. -/
def entry_anomalies (e : Entry) : List Anomaly :=
  let st := e.status.getD 0
  let errs : List Anomaly :=
    if 400 ≤ st then
      [{ type := ERROR_STATUS
         severity := if 500 ≤ st then HIGH else MEDIUM
         message := "HTTP " ++ toString st ++ " from " ++ e.ip.getD UNKNOWN
         entry := e }]
    else []
  let sz := e.size.getD 0
  let larges : List Anomaly :=
    if 10 * 1024 * 1024 < sz then
      [{ type := LARGE_RESPONSE
         severity := MEDIUM
         message := "Large response " ++ toString sz ++ " bytes"
         entry := e }]
    else []
  let path := e.path.getD ""
  let sus : List Anomaly :=
    match suspicious_patterns.find? (fun f => f path) with
    | some _ =>
      [{ type := SUSPICIOUS_PATH
         severity := HIGH
         message := "Suspicious path access: " ++ path
         entry := e }]
    | none => []
  errs ++ larges ++ sus

/-- detect_anomalies: unparsed entries are skipped, the rest contribute
their anomalies in input order. -/
def detect_anomalies (entries : List Entry) : List Anomaly :=
  entries.flatMap (fun e => if e.parsed then entry_anomalies e else [])

/-!
Specification-side predicates and concrete inputs used by the theorems.
-/

/-- One pattern piece admits every match of another: a larger class, a
smaller lower bound and a weaker upper bound. -/
def Subsumes (q p : PatPiece) : Prop :=
  (∀ c, p.cls c = true → q.cls c = true) ∧ q.lo ≤ p.lo ∧
    (∀ n, (∀ h, p.hi = some h → n ≤ h) → ∀ h, q.hi = some h → n ≤ h)

/-- The four web-log format names. -/
def webFormatName (f : String) : Prop :=
  f = APACHE ∨ f = NGINX ∨ f = COMMON ∨ f = COMBINED

/-- The declared field set of a web-log entry: ip, timestamp, request,
status and size present; the request triple present exactly when the
request splits into at least two tokens; referer and user agent present
exactly for the nginx and combined formats; no custom field. -/
def WebShape (e : Entry) (f : String) : Prop :=
  e.ip.isSome = true ∧ e.timestamp.isSome = true ∧ e.request.isSome = true ∧
    e.status.isSome = true ∧ e.size.isSome = true ∧
    e.level = none ∧ e.message = none ∧
    (e.method.isSome = true ↔ 2 ≤ (pySplit (e.request.getD "")).length) ∧
    (e.path.isSome = e.method.isSome) ∧ (e.protocol.isSome = e.method.isSome) ∧
    ((f = NGINX ∨ f = COMBINED) → e.referer.isSome = true ∧ e.user_agent.isSome = true) ∧
    ((f = APACHE ∨ f = COMMON) → e.referer = none ∧ e.user_agent = none)

/-- The declared field set of a custom entry: timestamp, level and message
present, every web field absent. -/
def CustomShape (e : Entry) : Prop :=
  e.timestamp.isSome = true ∧ e.level.isSome = true ∧ e.message.isSome = true ∧
    e.ip = none ∧ e.request = none ∧ e.status = none ∧ e.size = none ∧
    e.method = none ∧ e.path = none ∧ e.protocol = none ∧
    e.referer = none ∧ e.user_agent = none

/-- Count-descending order refined by a tie-break relation. -/
def rankLe (cnt : α → Nat) (E : α → α → Prop) (a b : α) : Prop :=
  cnt b ≤ cnt a ∧ (cnt a = cnt b → E a b)

/-- Position of the first occurrence of a value in a list. -/
def firstIdx [DecidableEq α] (a : α) : List α → Nat
  | [] => 0
  | x :: xs => if x = a then 0 else firstIdx a xs + 1

/-- What a top-ten frequency table of the value list xs must look like:
at most ten rows, exactly ten when ten distinct values exist, every row a
value of xs with its exact count, no duplicate keys, rows sorted by
descending count with ties in order of first appearance, and no excluded
value more frequent than an included one. -/
def TopTable (xs : List String) (l : List (String × Nat)) : Prop :=
  l.length ≤ 10 ∧
  l.length = min 10 (dedupFirst xs).length ∧
  (∀ p ∈ l, p.1 ∈ xs ∧ p.2 = xs.count p.1) ∧
  (l.map Prod.fst).Nodup ∧
  l.Pairwise (fun p q => xs.count q.1 ≤ xs.count p.1 ∧
    (xs.count p.1 = xs.count q.1 → firstIdx p.1 xs < firstIdx q.1 xs)) ∧
  (∀ x ∈ xs, x ∉ l.map Prod.fst → ∀ p ∈ l, xs.count x ≤ xs.count p.1)

/-- The example line of the specification (scenario 1). -/
def ex3 : String :=
  "10.0.0.1 - - [10/Oct/2024:13:55:36 -0700] \"GET /index.html HTTP/1.1\" 200 512"

/-- The entry the example line must produce under auto-detection. -/
def ex3Entry : Entry :=
  { raw_line := ex3
    parsed := true
    format := some APACHE
    ip := some "10.0.0.1"
    timestamp := some (some ⟨2024, 10, 10, 13, 55, 36, 0, some (-25200)⟩)
    request := some "GET /index.html HTTP/1.1"
    status := some 200
    size := some 512
    method := some "GET"
    path := some "/index.html"
    protocol := some "HTTP/1.1" }

/-- The example custom line of the specification (scenario 2). -/
def exCustom : String := "2024-10-10 13:55:36 ERROR: disk full"

/-- A line every registry pattern fails to match at the line start. -/
def exNoMatch : String := "xyz"

/-- A line whose apache prefix match leaves trailing text unconsumed. -/
def cex1 : String := "a - - [t] \"GET /x P\" 1 2 junk"

/-- A parsed entry with a server-error status (scenario 3). -/
def e503 : Entry := { raw_line := "r", parsed := true, status := some 503 }

/-- A parsed entry whose path matches several suspicious rules
(scenario 5). -/
def eSusp : Entry := { raw_line := "r", parsed := true, path := some "/wp-admin/config.php" }

/-- A batch mixing a timezone-aware and a naive parsed timestamp: both
lines parse, and aggregating them makes the Python code compare the two
kinds. -/
def mixedBatch : List Entry := [parse_log_line ex3 AUTO, parse_log_line exCustom AUTO]

/-- The timestamp string of the C7 witness, parsed by the third layout. -/
def ts3 : String := "2024-10-10 13:55:36"

/-- The datetime value of the C7 witness. -/
def dt3 : PyDateTime := ⟨2024, 10, 10, 13, 55, 36, 0, none⟩

/-- Entries with only an ip field, for the aggregation witness. -/
def eIpA : Entry := { raw_line := "r", parsed := true, ip := some "1.1.1.1" }

/-- A second ip-only entry. -/
def eIpB : Entry := { raw_line := "r", parsed := true, ip := some "2.2.2.2" }

/-- The aggregation witness batch: one ip twice, another once. -/
def esW8 : List Entry := [eIpA, eIpB, eIpA]

/-- The analysis record of the aggregation witness batch. -/
def aW8 : AnalysisResult :=
  { total_entries := some 3, parsed_entries := some 3,
    parse_rate := some ((3 : ℚ) / (3 : ℚ) * 100),
    top_ips := some [("1.1.1.1", 2), ("2.2.2.2", 1)],
    unique_ips := some 2,
    status_codes := some [], http_methods := some [],
    top_paths := some [] }

/-!
Matcher correctness: the executable matcher is sound and complete for the
declarative Valid relation, and the full-match variant additionally
characterises total consumption.
-/

theorem countRun_le_length (cls : Char → Bool) (s : List Char) : countRun cls s ≤ s.length := by
  induction s with
  | nil => simp [countRun]
  | cons c cs ih =>
    simp only [countRun, List.length_cons]
    split <;> omega

theorem le_countRun_iff (cls : Char → Bool) (s : List Char) (n : Nat) :
    n ≤ countRun cls s ↔ n ≤ s.length ∧ (s.take n).all cls = true := by
  induction s generalizing n with
  | nil =>
    cases n <;> simp [countRun]
  | cons c cs ih =>
    cases n with
    | zero => simp
    | succ m =>
      by_cases hc : cls c = true
      · rw [show countRun cls (c :: cs) = countRun cls cs + 1 by simp [countRun, hc]]
        simp only [List.take_succ_cons, List.all_cons, hc, Bool.true_and, List.length_cons]
        constructor
        · intro h
          have := (ih m).mp (by omega)
          exact ⟨by omega, this.2⟩
        · intro ⟨h1, h2⟩
          have := (ih m).mpr ⟨by omega, h2⟩
          omega
      · rw [show countRun cls (c :: cs) = 0 by simp [countRun, hc]]
        have hcf : cls c = false := by simpa using hc
        simp [List.take_succ_cons, hcf]

theorem mem_cands {n lo top : Nat} {lzy : Bool} : n ∈ cands lo top lzy ↔ lo ≤ n ∧ n ≤ top := by
  unfold cands
  split <;> simp only [List.mem_reverse, List.mem_range'_1] <;> omega

theorem firstSome_eq_some {f : Nat → Option α} {l : List Nat} {r : α}
    (h : firstSome f l = some r) : ∃ n ∈ l, f n = some r := by
  induction l with
  | nil => simp [firstSome] at h
  | cons n ns ih =>
    simp only [firstSome] at h
    split at h
    · next v hv => exact ⟨n, List.mem_cons_self n ns, by rw [hv, h]⟩
    · obtain ⟨m, hm, hfm⟩ := ih h
      exact ⟨m, List.mem_cons_of_mem n hm, hfm⟩

theorem firstSome_isSome_of_mem {f : Nat → Option α} {l : List Nat} {n : Nat}
    (hn : n ∈ l) (hf : (f n).isSome = true) : (firstSome f l).isSome = true := by
  induction l with
  | nil => simp at hn
  | cons m ms ih =>
    simp only [firstSome]
    split
    · simp
    · next hm =>
      rcases List.mem_cons.mp hn with h | h
      · subst h; rw [hm] at hf; simp at hf
      · exact ih h

theorem le_pieceTop {p : PatPiece} {run n : Nat} (h : n ≤ pieceTop p run) :
    n ≤ run ∧ ∀ hh, p.hi = some hh → n ≤ hh := by
  unfold pieceTop at h
  split at h
  · next he => exact ⟨h, fun hh hhe => by rw [he] at hhe; cases hhe⟩
  · next h' he =>
    refine ⟨le_trans h (min_le_right _ _), fun hh hhe => ?_⟩
    rw [he] at hhe
    cases hhe
    exact le_trans h (min_le_left _ _)

theorem pieceTop_le {p : PatPiece} {run n : Nat} (h1 : n ≤ run)
    (h2 : ∀ hh, p.hi = some hh → n ≤ hh) : n ≤ pieceTop p run := by
  unfold pieceTop
  split
  · exact h1
  · next h' he => exact le_min (h2 h' he) h1

theorem matchPieces_sound : ∀ (ps : List PatPiece) (s : List Char) (ns : List Nat),
    matchPieces ps s = some ns → Valid ps s ns := by
  intro ps
  induction ps with
  | nil =>
    intro s ns h
    simp only [matchPieces, Option.some.injEq] at h
    simpa [Valid] using h.symm
  | cons p ps ih =>
    intro s ns h
    simp only [matchPieces] at h
    obtain ⟨n, hn, hfn⟩ := firstSome_eq_some h
    cases hm : matchPieces ps (s.drop n) with
    | none => rw [hm] at hfn; simp at hfn
    | some ms =>
      rw [hm] at hfn
      simp only [Option.map_some', Option.some.injEq] at hfn
      subst hfn
      have hc := mem_cands.mp hn
      have htop := le_pieceTop hc.2
      have hrun := (le_countRun_iff p.cls s n).mp htop.1
      exact ⟨hc.1, htop.2, hrun.1, hrun.2, ih _ _ hm⟩

theorem matchPieces_complete : ∀ (ps : List PatPiece) (s : List Char) (ns : List Nat),
    Valid ps s ns → (matchPieces ps s).isSome = true := by
  intro ps
  induction ps with
  | nil => intro s ns _; simp [matchPieces]
  | cons p ps ih =>
    intro s ns h
    cases ns with
    | nil => exact absurd h (by simp [Valid])
    | cons n ms =>
      obtain ⟨h1, h2, h3, h4, h5⟩ := h
      simp only [matchPieces]
      apply firstSome_isSome_of_mem
        (mem_cands.mpr ⟨h1, pieceTop_le ((le_countRun_iff p.cls s n).mpr ⟨h3, h4⟩) h2⟩)
      simpa using ih _ _ h5

theorem fullMatchPieces_sound : ∀ (ps : List PatPiece) (s : List Char) (ns : List Nat),
    fullMatchPieces ps s = some ns → Valid ps s ns ∧ ns.sum = s.length := by
  intro ps
  induction ps with
  | nil =>
    intro s ns h
    simp only [fullMatchPieces] at h
    split at h
    · next he =>
      simp only [Option.some.injEq] at h
      subst h
      simp [Valid, List.isEmpty_iff.mp he]
    · cases h
  | cons p ps ih =>
    intro s ns h
    simp only [fullMatchPieces] at h
    obtain ⟨n, hn, hfn⟩ := firstSome_eq_some h
    cases hm : fullMatchPieces ps (s.drop n) with
    | none => rw [hm] at hfn; simp at hfn
    | some ms =>
      rw [hm] at hfn
      simp only [Option.map_some', Option.some.injEq] at hfn
      subst hfn
      have hc := mem_cands.mp hn
      have htop := le_pieceTop hc.2
      have hrun := (le_countRun_iff p.cls s n).mp htop.1
      obtain ⟨hv, hsum⟩ := ih _ _ hm
      refine ⟨⟨hc.1, htop.2, hrun.1, hrun.2, hv⟩, ?_⟩
      have hd : (s.drop n).length = s.length - n := List.length_drop n s
      simp only [List.sum_cons]
      omega

theorem fullMatchPieces_complete : ∀ (ps : List PatPiece) (s : List Char) (ns : List Nat),
    Valid ps s ns → ns.sum = s.length → (fullMatchPieces ps s).isSome = true := by
  intro ps
  induction ps with
  | nil =>
    intro s ns h hsum
    have : ns = [] := h
    subst this
    simp only [List.sum_nil] at hsum
    simp [fullMatchPieces, List.isEmpty_iff, List.eq_nil_of_length_eq_zero hsum.symm]
  | cons p ps ih =>
    intro s ns h hsum
    cases ns with
    | nil => exact absurd h (by simp [Valid])
    | cons n ms =>
      obtain ⟨h1, h2, h3, h4, h5⟩ := h
      simp only [List.sum_cons] at hsum
      simp only [fullMatchPieces]
      apply firstSome_isSome_of_mem
        (mem_cands.mpr ⟨h1, pieceTop_le ((le_countRun_iff p.cls s n).mpr ⟨h3, h4⟩) h2⟩)
      have hd : (s.drop n).length = s.length - n := List.length_drop n s
      simpa using ih _ _ h5 (by omega)

theorem valid_of_subsumes {qs ps : List PatPiece} (hf : List.Forall₂ Subsumes qs ps) :
    ∀ {s : List Char} {ns : List Nat}, Valid ps s ns → Valid qs s ns := by
  induction hf with
  | nil => intro s ns h; exact h
  | @cons q p qs ps hqp hrest ih =>
    intro s ns h
    cases ns with
    | nil => exact absurd h (by simp [Valid])
    | cons n ms =>
      obtain ⟨h1, h2, h3, h4, h5⟩ := h
      obtain ⟨hcls, hlo, hhi⟩ := hqp
      refine ⟨le_trans hlo h1, hhi n h2, h3, ?_, ih h5⟩
      rw [List.all_eq_true] at h4 ⊢
      exact fun c hc => hcls c (h4 c hc)

theorem valid_append_left : ∀ (ps qs : List PatPiece) (s : List Char) (ns : List Nat),
    Valid (ps ++ qs) s ns → Valid ps s (ns.take ps.length) := by
  intro ps
  induction ps with
  | nil => intro qs s ns _; simp [Valid]
  | cons p ps ih =>
    intro qs s ns h
    cases ns with
    | nil => exact absurd h (by simp [Valid])
    | cons n ms =>
      obtain ⟨h1, h2, h3, h4, h5⟩ := h
      simp only [List.length_cons, List.take_succ_cons]
      exact ⟨h1, h2, h3, h4, ih qs _ _ h5⟩

theorem subsume_refl (p : PatPiece) : Subsumes p p :=
  ⟨fun _ h => h, le_refl _, fun _ h => h⟩

theorem subsume_dash : Subsumes (plusP nonSpace) (litP '-') := by
  refine ⟨?_, le_refl 1, ?_⟩
  · intro c h
    have : c = '-' := by simpa [litP] using h
    subst this
    rfl
  · intro n _ hh he
    simp [plusP] at he

theorem forall2_apache_common : List.Forall₂ Subsumes apachePieces commonPieces := by
  unfold apachePieces commonPieces
  refine List.rel_append ?_ (List.forall₂_same.mpr (fun x _ => subsume_refl x))
  refine List.Forall₂.cons (subsume_refl _) ?_
  refine List.Forall₂.cons (subsume_refl _) ?_
  refine List.Forall₂.cons subsume_dash ?_
  refine List.Forall₂.cons (subsume_refl _) ?_
  refine List.Forall₂.cons subsume_dash ?_
  refine List.Forall₂.cons (subsume_refl _) ?_
  exact List.Forall₂.cons (subsume_refl _) List.Forall₂.nil

theorem apache_of_common {s : List Char} (h : (matchPieces commonPieces s).isSome = true) :
    (matchPieces apachePieces s).isSome = true := by
  obtain ⟨ns, hns⟩ := Option.isSome_iff_exists.mp h
  exact matchPieces_complete _ _ _
    (valid_of_subsumes forall2_apache_common (matchPieces_sound _ _ _ hns))

theorem apache_of_nginx {s : List Char} (h : (matchPieces nginxPieces s).isSome = true) :
    (matchPieces apachePieces s).isSome = true := by
  obtain ⟨ns, hns⟩ := Option.isSome_iff_exists.mp h
  have hv := matchPieces_sound _ _ _ hns
  rw [nginxPieces] at hv
  have hv2 := valid_append_left commonPieces _ s ns hv
  exact matchPieces_complete _ _ _ (valid_of_subsumes forall2_apache_common hv2)

/-!
Structure of extract_fields and parse_log_line.
-/

theorem extract_fields_eq (caps : List String) (f line : String) :
    extract_fields caps f line =
      if f = APACHE ∨ f = NGINX ∨ f = COMMON ∨ f = COMBINED then
        { raw_line := line, parsed := true, format := some f,
          ip := some (caps.getD 0 ""),
          timestamp := some (parse_timestamp (caps.getD 1 "")),
          request := some (caps.getD 2 ""),
          status := some (pyIntOr0 (caps.getD 3 "")),
          size := some (pyIntOr0 (caps.getD 4 "")),
          method := if 2 ≤ (pySplit (caps.getD 2 "")).length then
              some ((pySplit (caps.getD 2 "")).getD 0 "") else none,
          path := if 2 ≤ (pySplit (caps.getD 2 "")).length then
              some ((pySplit (caps.getD 2 "")).getD 1 "") else none,
          protocol := if 2 ≤ (pySplit (caps.getD 2 "")).length then
              some (if 2 < (pySplit (caps.getD 2 "")).length then
                (pySplit (caps.getD 2 "")).getD 2 "" else HTTP11) else none,
          referer := if (f = NGINX ∨ f = COMBINED) ∧ 5 < caps.length then
              some (if caps.getD 5 "" = "-" then none else some (caps.getD 5 "")) else none,
          user_agent := if (f = NGINX ∨ f = COMBINED) ∧ 5 < caps.length then
              some (if 6 < caps.length then some (caps.getD 6 "") else none) else none }
      else if f = CUSTOM then
        { raw_line := line, parsed := true, format := some f,
          timestamp := some (parse_timestamp (caps.getD 0 "")),
          level := some (caps.getD 1 ""),
          message := some (caps.getD 2 "") }
      else { raw_line := line, parsed := true, format := some f } := by
  unfold extract_fields
  dsimp only
  split_ifs <;> rfl

theorem extract_fields_parsed (caps : List String) (f line : String) :
    (extract_fields caps f line).parsed = true := by
  rw [extract_fields_eq]
  split_ifs <;> rfl

theorem extract_fields_format (caps : List String) (f line : String) :
    (extract_fields caps f line).format = some f := by
  rw [extract_fields_eq]
  split_ifs <;> rfl

theorem capsOf_length (ps : List PatPiece) (ns : List Nat) (s : List Char) :
    (capsOf ps ns s).length = numGroups ps := by
  simp [capsOf]

theorem parse_auto_eq (line : String) :
    parse_log_line line AUTO =
      match findMatch log_patterns line.data with
      | some (name, caps) => extract_fields caps name line
      | none => unparsedEntry line := by
  unfold parse_log_line
  rw [if_pos rfl]

theorem findMatch_registry (s : List Char) :
    (findMatch log_patterns s = none ∧
      matchPieces apachePieces s = none ∧ matchPieces nginxPieces s = none ∧
      matchPieces commonPieces s = none ∧ matchPieces combinedPieces s = none ∧
      matchPieces customPieces s = none) ∨
    (∃ ns, matchPieces apachePieces s = some ns ∧
      findMatch log_patterns s = some (APACHE, capsOf apachePieces ns s)) ∨
    (∃ ns, matchPieces customPieces s = some ns ∧ matchPieces apachePieces s = none ∧
      findMatch log_patterns s = some (CUSTOM, capsOf customPieces ns s)) := by
  by_cases ha : matchPieces apachePieces s = none
  · have hn : matchPieces nginxPieces s = none := by
      by_contra h
      have h2 := apache_of_nginx (s := s) (Option.ne_none_iff_isSome.mp h)
      rw [ha] at h2
      simp at h2
    have hc : matchPieces commonPieces s = none := by
      by_contra h
      have h2 := apache_of_common (s := s) (Option.ne_none_iff_isSome.mp h)
      rw [ha] at h2
      simp at h2
    have hcb : matchPieces combinedPieces s = none := by
      rw [combinedPieces]; exact hn
    by_cases hcu : matchPieces customPieces s = none
    · left
      exact ⟨by simp [log_patterns, findMatch, pyMatchCaps, ha, hn, hc, hcb, hcu],
        ha, hn, hc, hcb, hcu⟩
    · obtain ⟨ns, hns⟩ := Option.ne_none_iff_exists'.mp hcu
      right; right
      exact ⟨ns, hns, ha, by simp [log_patterns, findMatch, pyMatchCaps, ha, hn, hc, hcb, hns]⟩
  · obtain ⟨ns, hns⟩ := Option.ne_none_iff_exists'.mp ha
    right; left
    exact ⟨ns, hns, by simp [log_patterns, findMatch, pyMatchCaps, hns]⟩

theorem parse_auto_apache_or_custom (line : String) :
    parse_log_line line AUTO = unparsedEntry line ∨
    (∃ caps, parse_log_line line AUTO = extract_fields caps APACHE line) ∨
    (∃ caps, parse_log_line line AUTO = extract_fields caps CUSTOM line) := by
  rw [parse_auto_eq]
  rcases findMatch_registry line.data with ⟨h, _⟩ | ⟨ns, _, h⟩ | ⟨ns, _, _, h⟩ <;> rw [h]
  · left; rfl
  · right; left; exact ⟨_, rfl⟩
  · right; right; exact ⟨_, rfl⟩

/-!
Field-shape lemmas for the extraction.
-/

theorem webShape_of_extract (caps : List String) (f line : String)
    (hweb : f = APACHE ∨ f = NGINX ∨ f = COMMON ∨ f = COMBINED)
    (href : (f = NGINX ∨ f = COMBINED) → 5 < caps.length) :
    WebShape (extract_fields caps f line) f := by
  rw [extract_fields_eq, if_pos hweb]
  unfold WebShape
  dsimp only
  refine ⟨rfl, rfl, rfl, rfl, rfl, rfl, rfl, ?_, ?_, ?_, ?_, ?_⟩
  · by_cases hp : 2 ≤ (pySplit (caps.getD 2 "")).length
    · rw [if_pos hp]
      simpa using hp
    · rw [if_neg hp]
      simpa using hp
  · by_cases hp : 2 ≤ (pySplit (caps.getD 2 "")).length
    · rw [if_pos hp, if_pos hp]
      rfl
    · rw [if_neg hp, if_neg hp]
  · by_cases hp : 2 ≤ (pySplit (caps.getD 2 "")).length
    · rw [if_pos hp, if_pos hp]
      rfl
    · rw [if_neg hp, if_neg hp]
  · intro hnc
    have hcond : (f = NGINX ∨ f = COMBINED) ∧ 5 < caps.length := ⟨hnc, href hnc⟩
    rw [if_pos hcond, if_pos hcond]
    exact ⟨rfl, rfl⟩
  · intro hac
    have hneg : ¬((f = NGINX ∨ f = COMBINED) ∧ 5 < caps.length) := by
      rcases hac with h | h <;> subst h <;> rintro ⟨h2 | h2, _⟩ <;>
        simp [APACHE, NGINX, COMMON, COMBINED] at h2
    rw [if_neg hneg, if_neg hneg]
    exact ⟨rfl, rfl⟩

theorem customShape_of_extract (caps : List String) (line : String) :
    CustomShape (extract_fields caps CUSTOM line) := by
  rw [extract_fields_eq]
  rw [if_neg (by simp [APACHE, NGINX, COMMON, COMBINED, CUSTOM]), if_pos rfl]
  unfold CustomShape
  exact ⟨rfl, rfl, rfl, rfl, rfl, rfl, rfl, rfl, rfl, rfl, rfl, rfl⟩

/-!
The claims about line parsing.
-/

/-- Claim C1, amended: parse_log_line under the auto selector returns a
parsed entry exactly when some registry pattern matches at the start of the
line in the prefix sense of Python re.match — trailing unmatched content is
allowed, so entries can come from prefix-only matches — and it returns the
bare unparsed shape otherwise.  The original claim, that a parsed entry
requires a pattern to consume the whole line, is refuted by the
counterexample theorem. -/
theorem claim_C1_amended (line : String) :
    ((parse_log_line line AUTO).parsed = true ↔
      ∃ p ∈ log_patterns, ∃ ns, Valid p.2 line.data ns) ∧
    ((parse_log_line line AUTO).parsed = false →
      parse_log_line line AUTO = unparsedEntry line) := by
  constructor
  · constructor
    · intro hp
      rcases findMatch_registry line.data with ⟨hnone, _⟩ | ⟨ns, hm, _⟩ | ⟨ns, hm, _, _⟩
      · rw [parse_auto_eq, hnone] at hp
        exact absurd hp (by simp [unparsedEntry])
      · obtain ⟨ms, hms⟩ := Option.isSome_iff_exists.mp (by simp [hm] :
          (matchPieces apachePieces line.data).isSome = true)
        exact ⟨(APACHE, apachePieces), by simp [log_patterns], ms,
          matchPieces_sound _ _ _ hms⟩
      · exact ⟨(CUSTOM, customPieces), by simp [log_patterns], ns,
          matchPieces_sound _ _ _ hm⟩
    · rintro ⟨p, hmem, ns, hv⟩
      have hsome : (matchPieces apachePieces line.data).isSome = true ∨
          (matchPieces customPieces line.data).isSome = true := by
        have h2 := matchPieces_complete _ _ _ hv
        simp only [log_patterns, List.mem_cons, List.not_mem_nil, or_false] at hmem
        rcases hmem with h | h | h | h | h <;> rw [h] at h2
        · exact Or.inl h2
        · exact Or.inl (apache_of_nginx h2)
        · exact Or.inl (apache_of_common h2)
        · exact Or.inl (apache_of_nginx (by rw [← combinedPieces]; exact h2))
        · exact Or.inr h2
      rcases findMatch_registry line.data with ⟨_, ha, _, _, _, hcu⟩ | ⟨ns2, _, hf⟩ |
          ⟨ns2, _, _, hf⟩
      · rcases hsome with h | h
        · rw [ha] at h; simp at h
        · rw [hcu] at h; simp at h
      · rw [parse_auto_eq, hf]
        exact extract_fields_parsed _ _ _
      · rw [parse_auto_eq, hf]
        exact extract_fields_parsed _ _ _
  · intro hp
    rcases parse_auto_apache_or_custom line with h | ⟨caps, h⟩ | ⟨caps, h⟩
    · exact h
    · rw [h] at hp; rw [extract_fields_parsed] at hp; cases hp
    · rw [h] at hp; rw [extract_fields_parsed] at hp; cases hp

/-- Claim C1, counterexample: on this line the apache pattern matches a
proper prefix, no registry pattern matches the line in full, and the code
still returns a parsed entry — so entries are produced from prefix-only
matches, contradicting the claim as stated. -/
theorem claim_C1_counterexample :
    (parse_log_line cex1 AUTO).parsed = true ∧
    log_patterns.all (fun p => (fullMatchPieces p.2 cex1.data).isNone) = true :=
  ⟨by rfl, by rfl⟩

/-- Claim C1, witness: a line no pattern matches comes back in the bare
unparsed shape. -/
theorem claim_C1_witness :
    (parse_log_line exNoMatch AUTO).parsed = false ∧
    parse_log_line exNoMatch AUTO = unparsedEntry exNoMatch :=
  ⟨by rfl, (claim_C1_amended exNoMatch).2 (by rfl)⟩

/-- Claim C3: auto-detection tries apache first, so any line the apache
pattern matches — in particular one both the apache and the common
patterns match — is classified apache; and the example line of the
specification extracts exactly the expected apache entry. -/
theorem claim_C3 :
    (∀ line : String, (matchPieces apachePieces line.data).isSome = true →
      (matchPieces commonPieces line.data).isSome = true →
      (parse_log_line line AUTO).format = some APACHE) ∧
    parse_log_line ex3 AUTO = ex3Entry := by
  constructor
  · intro line hA _
    rcases findMatch_registry line.data with ⟨_, ha, _⟩ | ⟨ns, _, hf⟩ | ⟨ns, _, ha, _⟩
    · rw [ha] at hA; simp at hA
    · rw [parse_auto_eq, hf]
      exact extract_fields_format _ _ _
    · rw [ha] at hA; simp at hA
  · rfl

/-- Claim C3, witness: the example line is matched by both the apache and
the common patterns, and auto-detection classifies it apache. -/
theorem claim_C3_witness :
    (matchPieces apachePieces ex3.data).isSome = true ∧
    (matchPieces commonPieces ex3.data).isSome = true ∧
    (parse_log_line ex3 AUTO).format = some APACHE :=
  ⟨by rfl, by rfl, claim_C3.1 ex3 (by rfl) (by rfl)⟩

/-- Claim C4: under auto-detection the apache pattern absorbs every line
the nginx, common or combined patterns would match, so an auto-detected
entry is never tagged nginx, common or combined — it is apache, custom, or
unparsed — and the referer and user-agent fields are never populated under
auto-detection. -/
theorem claim_C4 (line : String) :
    ((parse_log_line line AUTO).format ≠ some NGINX ∧
     (parse_log_line line AUTO).format ≠ some COMMON ∧
     (parse_log_line line AUTO).format ≠ some COMBINED) ∧
    ((parse_log_line line AUTO).parsed = true →
      (parse_log_line line AUTO).format = some APACHE ∨
      (parse_log_line line AUTO).format = some CUSTOM) ∧
    (parse_log_line line AUTO).referer = none ∧
    (parse_log_line line AUTO).user_agent = none := by
  rcases parse_auto_apache_or_custom line with h | ⟨caps, h⟩ | ⟨caps, h⟩ <;> rw [h]
  · exact ⟨⟨by simp [unparsedEntry], by simp [unparsedEntry], by simp [unparsedEntry]⟩,
      fun hp => absurd hp (by simp [unparsedEntry]), rfl, rfl⟩
  · have hsh := webShape_of_extract caps APACHE line (Or.inl rfl)
      (fun hc => by rcases hc with hc | hc <;> simp [APACHE, NGINX, COMBINED] at hc)
    have hfmt := extract_fields_format caps APACHE line
    refine ⟨⟨?_, ?_, ?_⟩, fun _ => Or.inl hfmt, ?_, ?_⟩
    · rw [hfmt]; simp [APACHE, NGINX]
    · rw [hfmt]; simp [APACHE, COMMON]
    · rw [hfmt]; simp [APACHE, COMBINED]
    · exact (hsh.2.2.2.2.2.2.2.2.2.2.2 (Or.inl rfl)).1
    · exact (hsh.2.2.2.2.2.2.2.2.2.2.2 (Or.inl rfl)).2
  · have hsh := customShape_of_extract caps line
    have hfmt := extract_fields_format caps CUSTOM line
    refine ⟨⟨?_, ?_, ?_⟩, fun _ => Or.inr hfmt, ?_, ?_⟩
    · rw [hfmt]; simp [CUSTOM, NGINX]
    · rw [hfmt]; simp [CUSTOM, COMMON]
    · rw [hfmt]; simp [CUSTOM, COMBINED]
    · exact hsh.2.2.2.2.2.2.2.2.2.2.1
    · exact hsh.2.2.2.2.2.2.2.2.2.2.2

/-- Claim C4, witness: the custom example line is auto-detected as a
parsed entry, and its format is apache or custom as the claim allows. -/
theorem claim_C4_witness :
    (parse_log_line exCustom AUTO).format = some APACHE ∨
    (parse_log_line exCustom AUTO).format = some CUSTOM :=
  (claim_C4 exCustom).2.1 (by rfl)

theorem parse_forced_eq (line fmt : String) (h : ¬fmt = AUTO) :
    parse_log_line line fmt =
      match log_patterns.lookup fmt with
      | some ps =>
        match pyMatchCaps ps line.data with
        | some caps => extract_fields caps fmt line
        | none => unparsedEntry line
      | none => unparsedEntry line := by
  unfold parse_log_line
  rw [if_neg h]

theorem parse_forced_some (line fmt : String) (h : ¬fmt = AUTO) (ps : List PatPiece)
    (hps : log_patterns.lookup fmt = some ps) :
    parse_log_line line fmt =
      match pyMatchCaps ps line.data with
      | some caps => extract_fields caps fmt line
      | none => unparsedEntry line := by
  rw [parse_forced_eq line fmt h, hps]

theorem parse_forced_none (line fmt : String) (h : ¬fmt = AUTO)
    (hps : log_patterns.lookup fmt = none) :
    parse_log_line line fmt = unparsedEntry line := by
  rw [parse_forced_eq line fmt h, hps]

/-- Claim C10: every entry parse_log_line returns is either exactly the
bare unparsed shape, or is parsed with a format tag among the five known
names and exactly that format's declared field set — fields of two
different formats are never mixed. -/
theorem claim_C10 (line fmt : String) :
    (parse_log_line line fmt = unparsedEntry line ∧
      (parse_log_line line fmt).parsed = false) ∨
    ((parse_log_line line fmt).parsed = true ∧
      ∃ f, (parse_log_line line fmt).format = some f ∧
        ((webFormatName f ∧ WebShape (parse_log_line line fmt) f) ∨
         (f = CUSTOM ∧ CustomShape (parse_log_line line fmt)))) := by
  by_cases hauto : fmt = AUTO
  · subst hauto
    rcases parse_auto_apache_or_custom line with h | ⟨caps, h⟩ | ⟨caps, h⟩ <;> rw [h]
    · exact Or.inl ⟨rfl, rfl⟩
    · refine Or.inr ⟨extract_fields_parsed _ _ _, APACHE, extract_fields_format _ _ _,
        Or.inl ⟨Or.inl rfl, ?_⟩⟩
      exact webShape_of_extract caps APACHE line (Or.inl rfl)
        (fun hc => by rcases hc with hc | hc <;> simp [APACHE, NGINX, COMBINED] at hc)
    · exact Or.inr ⟨extract_fields_parsed _ _ _, CUSTOM, extract_fields_format _ _ _,
        Or.inr ⟨rfl, customShape_of_extract caps line⟩⟩
  · by_cases h1 : fmt = APACHE
    · subst h1
      rw [parse_forced_some line APACHE hauto apachePieces rfl]
      cases ha : pyMatchCaps apachePieces line.data with
      | none => exact Or.inl ⟨rfl, rfl⟩
      | some caps =>
        refine Or.inr ⟨extract_fields_parsed _ _ _, APACHE, extract_fields_format _ _ _,
          Or.inl ⟨Or.inl rfl, ?_⟩⟩
        exact webShape_of_extract caps APACHE line (Or.inl rfl)
          (fun hc => by rcases hc with hc | hc <;> simp [APACHE, NGINX, COMBINED] at hc)
    · by_cases h2 : fmt = NGINX
      · subst h2
        rw [parse_forced_some line NGINX hauto nginxPieces rfl]
        cases ha : pyMatchCaps nginxPieces line.data with
        | none => exact Or.inl ⟨rfl, rfl⟩
        | some caps =>
          obtain ⟨ns, hns, hcaps⟩ := Option.map_eq_some'.mp ha
          have hlen : 5 < caps.length := by
            rw [← hcaps, capsOf_length]
            decide
          refine Or.inr ⟨extract_fields_parsed _ _ _, NGINX, extract_fields_format _ _ _,
            Or.inl ⟨Or.inr (Or.inl rfl), ?_⟩⟩
          exact webShape_of_extract caps NGINX line (Or.inr (Or.inl rfl)) (fun _ => hlen)
      · by_cases h3 : fmt = COMMON
        · subst h3
          rw [parse_forced_some line COMMON hauto commonPieces rfl]
          cases ha : pyMatchCaps commonPieces line.data with
          | none => exact Or.inl ⟨rfl, rfl⟩
          | some caps =>
            refine Or.inr ⟨extract_fields_parsed _ _ _, COMMON, extract_fields_format _ _ _,
              Or.inl ⟨Or.inr (Or.inr (Or.inl rfl)), ?_⟩⟩
            exact webShape_of_extract caps COMMON line (Or.inr (Or.inr (Or.inl rfl)))
              (fun hc => by rcases hc with hc | hc <;> simp [COMMON, NGINX, COMBINED] at hc)
        · by_cases h4 : fmt = COMBINED
          · subst h4
            rw [parse_forced_some line COMBINED hauto combinedPieces rfl]
            cases ha : pyMatchCaps combinedPieces line.data with
            | none => exact Or.inl ⟨rfl, rfl⟩
            | some caps =>
              obtain ⟨ns, hns, hcaps⟩ := Option.map_eq_some'.mp ha
              have hlen : 5 < caps.length := by
                rw [← hcaps, capsOf_length]
                decide
              refine Or.inr ⟨extract_fields_parsed _ _ _, COMBINED,
                extract_fields_format _ _ _,
                Or.inl ⟨Or.inr (Or.inr (Or.inr rfl)), ?_⟩⟩
              exact webShape_of_extract caps COMBINED line (Or.inr (Or.inr (Or.inr rfl)))
                (fun _ => hlen)
          · by_cases h5 : fmt = CUSTOM
            · subst h5
              rw [parse_forced_some line CUSTOM hauto customPieces rfl]
              cases ha : pyMatchCaps customPieces line.data with
              | none => exact Or.inl ⟨rfl, rfl⟩
              | some caps =>
                exact Or.inr ⟨extract_fields_parsed _ _ _, CUSTOM,
                  extract_fields_format _ _ _,
                  Or.inr ⟨rfl, customShape_of_extract caps line⟩⟩
            · rw [parse_forced_none line fmt hauto (by
                simp only [log_patterns, List.lookup]
                rw [beq_eq_false_iff_ne.mpr h1, beq_eq_false_iff_ne.mpr h2,
                  beq_eq_false_iff_ne.mpr h3, beq_eq_false_iff_ne.mpr h4,
                  beq_eq_false_iff_ne.mpr h5])]
              exact Or.inl ⟨rfl, rfl⟩

/-!
Anomaly detection: per-entry characterisations, then the batch claims.
-/

theorem detect_anomalies_cons (x : Entry) (es : List Entry) :
    detect_anomalies (x :: es) =
      (if x.parsed then entry_anomalies x else []) ++ detect_anomalies es := by
  simp [detect_anomalies]

theorem mem_entry_anomalies_entry {a : Anomaly} {x : Entry} (h : a ∈ entry_anomalies x) :
    a.entry = x := by
  unfold entry_anomalies at h
  dsimp only at h
  rcases List.mem_append.mp h with h1 | h1
  · rcases List.mem_append.mp h1 with h2 | h2
    · split at h2
      · rcases List.mem_singleton.mp h2 with rfl
        rfl
      · cases h2
    · split at h2
      · rcases List.mem_singleton.mp h2 with rfl
        rfl
      · cases h2
  · split at h1
    · rcases List.mem_singleton.mp h1 with rfl
      rfl
    · cases h1

theorem entry_anomalies_error_countP (x e : Entry) :
    (entry_anomalies x).countP (fun a => decide (a.type = ERROR_STATUS ∧ a.entry = e)) =
      if 400 ≤ x.status.getD 0 ∧ x = e then 1 else 0 := by
  unfold entry_anomalies
  dsimp only
  rw [List.countP_append, List.countP_append]
  by_cases hxe : x = e
  · subst hxe
    by_cases hst : 400 ≤ x.status.getD 0 <;>
      by_cases hsz : 10 * 1024 * 1024 < x.size.getD 0 <;>
      cases hfind : suspicious_patterns.find? (fun f => f (x.path.getD "")) <;>
      simp [hst, hsz, hfind, List.countP_cons,
        ERROR_STATUS, LARGE_RESPONSE, SUSPICIOUS_PATH]
  · by_cases hst : 400 ≤ x.status.getD 0 <;>
      by_cases hsz : 10 * 1024 * 1024 < x.size.getD 0 <;>
      cases hfind : suspicious_patterns.find? (fun f => f (x.path.getD "")) <;>
      simp [hst, hsz, hfind, hxe, List.countP_cons,
        ERROR_STATUS, LARGE_RESPONSE, SUSPICIOUS_PATH]

theorem entry_anomalies_susp_countP (x e : Entry) :
    (entry_anomalies x).countP (fun a => decide (a.type = SUSPICIOUS_PATH ∧ a.entry = e)) =
      if (suspicious_patterns.find? (fun f => f (x.path.getD ""))).isSome = true ∧ x = e
        then 1 else 0 := by
  unfold entry_anomalies
  dsimp only
  rw [List.countP_append, List.countP_append]
  by_cases hxe : x = e
  · subst hxe
    by_cases hst : 400 ≤ x.status.getD 0 <;>
      by_cases hsz : 10 * 1024 * 1024 < x.size.getD 0 <;>
      cases hfind : suspicious_patterns.find? (fun f => f (x.path.getD "")) <;>
      simp [hst, hsz, hfind, List.countP_cons,
        ERROR_STATUS, LARGE_RESPONSE, SUSPICIOUS_PATH]
  · by_cases hst : 400 ≤ x.status.getD 0 <;>
      by_cases hsz : 10 * 1024 * 1024 < x.size.getD 0 <;>
      cases hfind : suspicious_patterns.find? (fun f => f (x.path.getD "")) <;>
      simp [hst, hsz, hfind, hxe, List.countP_cons,
        ERROR_STATUS, LARGE_RESPONSE, SUSPICIOUS_PATH]

theorem entry_anomalies_error_severity {a : Anomaly} {x : Entry}
    (h : a ∈ entry_anomalies x) (ht : a.type = ERROR_STATUS) :
    400 ≤ x.status.getD 0 ∧
      a.severity = if 500 ≤ x.status.getD 0 then HIGH else MEDIUM := by
  unfold entry_anomalies at h
  dsimp only at h
  rcases List.mem_append.mp h with h1 | h1
  · rcases List.mem_append.mp h1 with h2 | h2
    · split at h2
      · next hst =>
        rcases List.mem_singleton.mp h2 with rfl
        exact ⟨hst, rfl⟩
      · cases h2
    · split at h2
      · rcases List.mem_singleton.mp h2 with rfl
        exact absurd ht (by simp [LARGE_RESPONSE, ERROR_STATUS])
      · cases h2
  · split at h1
    · rcases List.mem_singleton.mp h1 with rfl
      exact absurd ht (by simp [SUSPICIOUS_PATH, ERROR_STATUS])
    · cases h1

theorem entry_anomalies_susp_severity {a : Anomaly} {x : Entry}
    (h : a ∈ entry_anomalies x) (ht : a.type = SUSPICIOUS_PATH) : a.severity = HIGH := by
  unfold entry_anomalies at h
  dsimp only at h
  rcases List.mem_append.mp h with h1 | h1
  · rcases List.mem_append.mp h1 with h2 | h2
    · split at h2
      · rcases List.mem_singleton.mp h2 with rfl
        exact absurd ht (by simp [ERROR_STATUS, SUSPICIOUS_PATH])
      · cases h2
    · split at h2
      · rcases List.mem_singleton.mp h2 with rfl
        exact absurd ht (by simp [LARGE_RESPONSE, SUSPICIOUS_PATH])
      · cases h2
  · split at h1
    · rcases List.mem_singleton.mp h1 with rfl
      rfl
    · cases h1

theorem mem_detect_anomalies {a : Anomaly} {es : List Entry}
    (h : a ∈ detect_anomalies es) :
    ∃ x ∈ es, x.parsed = true ∧ a ∈ entry_anomalies x := by
  unfold detect_anomalies at h
  obtain ⟨x, hx, hax⟩ := List.mem_flatMap.mp h
  refine ⟨x, hx, ?_⟩
  by_cases hxp : x.parsed
  · rw [if_pos hxp] at hax
    exact ⟨hxp, hax⟩
  · rw [if_neg hxp] at hax
    cases hax

/-- Claim C6: for every parsed entry, detect_anomalies emits exactly one
error-status anomaly per occurrence of the entry when its status is at
least 400 and none otherwise, and such an anomaly carries severity high
exactly when the status is at least 500 (medium otherwise). -/
theorem claim_C6 (es : List Entry) (e : Entry) (hp : e.parsed = true) :
    ((detect_anomalies es).countP (fun a => decide (a.type = ERROR_STATUS ∧ a.entry = e)) =
      if 400 ≤ e.status.getD 0 then es.countP (fun x => decide (x = e)) else 0) ∧
    (∀ a ∈ detect_anomalies es, a.type = ERROR_STATUS → a.entry = e →
      a.severity = if 500 ≤ e.status.getD 0 then HIGH else MEDIUM) := by
  constructor
  · induction es with
    | nil => simp [detect_anomalies]
    | cons x es ih =>
      rw [detect_anomalies_cons, List.countP_append, List.countP_cons, ih]
      by_cases hxe : x = e
      · subst hxe
        rw [if_pos hp, entry_anomalies_error_countP x x]
        by_cases hst : 400 ≤ x.status.getD 0
        · simp [hst]
          omega
        · simp [hst]
      · by_cases hxp : x.parsed
        · rw [if_pos hxp, entry_anomalies_error_countP x e]
          rw [if_neg (fun hc => hxe hc.2)]
          by_cases hst : 400 ≤ e.status.getD 0 <;> simp [hst, hxe]
        · rw [if_neg hxp]
          by_cases hst : 400 ≤ e.status.getD 0 <;> simp [hst, hxe]
  · intro a ha htype hentry
    obtain ⟨x, _, _, hax⟩ := mem_detect_anomalies ha
    have hx := mem_entry_anomalies_entry hax
    rw [hentry] at hx
    subst hx
    exact (entry_anomalies_error_severity hax htype).2

/-- Claim C6, witness: the status-503 entry yields exactly one
error-status anomaly, with severity high. -/
theorem claim_C6_witness :
    e503.parsed = true ∧
    ((detect_anomalies [e503]).countP
        (fun a => decide (a.type = ERROR_STATUS ∧ a.entry = e503)) =
      if 400 ≤ e503.status.getD 0 then [e503].countP (fun x => decide (x = e503)) else 0) ∧
    (if 400 ≤ e503.status.getD 0 then [e503].countP (fun x => decide (x = e503)) else 0) = 1 ∧
    (∀ a ∈ detect_anomalies [e503], a.type = ERROR_STATUS → a.entry = e503 →
      a.severity = if 500 ≤ e503.status.getD 0 then HIGH else MEDIUM) ∧
    (if 500 ≤ e503.status.getD 0 then HIGH else MEDIUM) = HIGH :=
  ⟨rfl, (claim_C6 [e503] e503 rfl).1, by decide, (claim_C6 [e503] e503 rfl).2, by decide⟩

/-- Claim C5: for a parsed entry whose path matches at least two of the
suspicious rules, detect_anomalies emits exactly one suspicious-path
anomaly per occurrence of the entry — the loop breaks after the first
matching rule — and every such anomaly has severity high. -/
theorem claim_C5 (es : List Entry) (e : Entry) (hp : e.parsed = true)
    (h2 : 2 ≤ suspicious_patterns.countP (fun f => f (e.path.getD ""))) :
    ((detect_anomalies es).countP
        (fun a => decide (a.type = SUSPICIOUS_PATH ∧ a.entry = e)) =
      es.countP (fun x => decide (x = e))) ∧
    (∀ a ∈ detect_anomalies es, a.type = SUSPICIOUS_PATH → a.severity = HIGH) := by
  have hfind : (suspicious_patterns.find? (fun f => f (e.path.getD ""))).isSome = true := by
    have hpos : 0 < suspicious_patterns.countP (fun f => f (e.path.getD "")) :=
      Nat.lt_of_lt_of_le (by norm_num) h2
    obtain ⟨f, hf, hpf⟩ := List.countP_pos_iff.mp hpos
    simp only [List.find?_isSome]
    exact ⟨f, hf, hpf⟩
  constructor
  · induction es with
    | nil => simp [detect_anomalies]
    | cons x es ih =>
      rw [detect_anomalies_cons, List.countP_append, List.countP_cons, ih]
      by_cases hxe : x = e
      · subst hxe
        rw [if_pos hp, entry_anomalies_susp_countP x x]
        simp [hfind]
        exact Nat.add_comm 1 _
      · by_cases hxp : x.parsed
        · rw [if_pos hxp, entry_anomalies_susp_countP x e]
          rw [if_neg (fun hc => hxe hc.2)]
          simp [hxe]
        · rw [if_neg hxp]
          simp [hxe]
  · intro a ha htype
    obtain ⟨x, _, _, hax⟩ := mem_detect_anomalies ha
    exact entry_anomalies_susp_severity hax htype

/-- Claim C5, witness: the wp-admin config path matches four suspicious
rules yet yields exactly one suspicious-path anomaly, severity high. -/
theorem claim_C5_witness :
    eSusp.parsed = true ∧
    2 ≤ suspicious_patterns.countP (fun f => f (eSusp.path.getD "")) ∧
    ((detect_anomalies [eSusp]).countP
        (fun a => decide (a.type = SUSPICIOUS_PATH ∧ a.entry = eSusp)) =
      [eSusp].countP (fun x => decide (x = eSusp))) ∧
    [eSusp].countP (fun x => decide (x = eSusp)) = 1 ∧
    (∀ a ∈ detect_anomalies [eSusp], a.type = SUSPICIOUS_PATH → a.severity = HIGH) :=
  ⟨rfl, by decide, (claim_C5 [eSusp] eSusp rfl (by decide)).1, by decide,
    (claim_C5 [eSusp] eSusp rfl (by decide)).2⟩

/-!
Timestamp and aggregation claims.
-/

/-- Claim C7: parse_timestamp tries exactly the four layouts in their
fixed order — day-slash-month-name with timezone, the same without
timezone, year-month-day with seconds, then the same with fractional
seconds — returns the instant of the first layout that succeeds, and
returns none rather than failing when none matches. -/
theorem claim_C7 (s : String) :
    (parse_timestamp s = none ↔
      strp_dbY_HMS_z s = none ∧ strp_dbY_HMS s = none ∧
      strp_Ymd_HMS s = none ∧ strp_Ymd_HMS_f s = none) ∧
    (∀ d, strp_dbY_HMS_z s = some d → parse_timestamp s = some d) ∧
    (strp_dbY_HMS_z s = none →
      ∀ d, strp_dbY_HMS s = some d → parse_timestamp s = some d) ∧
    (strp_dbY_HMS_z s = none → strp_dbY_HMS s = none →
      ∀ d, strp_Ymd_HMS s = some d → parse_timestamp s = some d) ∧
    (strp_dbY_HMS_z s = none → strp_dbY_HMS s = none → strp_Ymd_HMS s = none →
      ∀ d, strp_Ymd_HMS_f s = some d → parse_timestamp s = some d) := by
  cases h1 : strp_dbY_HMS_z s with
  | some t => simp [parse_timestamp, h1]
  | none =>
    cases h2 : strp_dbY_HMS s with
    | some t => simp [parse_timestamp, h1, h2]
    | none =>
      cases h3 : strp_Ymd_HMS s with
      | some t => simp [parse_timestamp, h1, h2, h3]
      | none =>
        cases h4 : strp_Ymd_HMS_f s with
        | some t => simp [parse_timestamp, h1, h2, h3, h4]
        | none => simp [parse_timestamp, h1, h2, h3, h4]

/-- Claim C7, witness: a timestamp in the third layout fails the first
two layouts and parse_timestamp returns exactly the third layout's
instant. -/
theorem claim_C7_witness :
    strp_dbY_HMS_z ts3 = none ∧ strp_dbY_HMS ts3 = none ∧
    strp_Ymd_HMS ts3 = some dt3 ∧ parse_timestamp ts3 = some dt3 :=
  ⟨rfl, rfl, rfl, (claim_C7 ts3).2.2.2.1 rfl rfl dt3 rfl⟩

theorem analyze_entries_rate (es : List Entry) (a : AnalysisResult)
    (h : analyze_entries es = .ok a) (r : ℚ) (hr : a.parse_rate = some r) :
    es ≠ [] ∧
      r = ((es.filter (fun e => e.parsed)).length : ℚ) / (es.length : ℚ) * 100 := by
  unfold analyze_entries at h
  split at h
  · next he =>
    simp only [Except.ok.injEq] at h
    subst h
    cases hr
  · next he =>
    refine ⟨fun hnil => he (by simp [hnil]), ?_⟩
    dsimp only at h
    split at h
    · simp only [Except.ok.injEq] at h
      subst h
      simp only [Option.some.injEq] at hr
      exact hr.symm
    · split at h
      · simp only [Except.ok.injEq] at h
        subst h
        split at hr <;>
        · simp only [Option.some.injEq] at hr
          exact hr.symm
      · split at h
        · cases h
        · split at h
          · cases h
          · split at h
            · cases h
            · simp only [Except.ok.injEq] at h
              subst h
              split at hr <;>
              · simp only [Option.some.injEq] at hr
                exact hr.symm

/-- Claim C2, amended: analyze_entries of the empty batch returns the
EMPTY result — a dict with no keys at all, so no zero-valued
total_entries, parsed_entries or parse_rate fields — and never a fault;
whenever a parse_rate is produced it equals
parsed_entries / total_entries * 100 and lies in the interval from 0 to
100.  The original claim, that the empty batch carries explicit zero
fields, is refuted by the counterexample theorem. -/
theorem claim_C2_amended :
    analyze_entries [] = Except.ok {} ∧
    (∀ (es : List Entry) (a : AnalysisResult), analyze_entries es = Except.ok a →
      ∀ r, a.parse_rate = some r →
        r = ((es.filter (fun e => e.parsed)).length : ℚ) / (es.length : ℚ) * 100 ∧
        0 ≤ r ∧ r ≤ 100) := by
  refine ⟨rfl, fun es a h r hr => ?_⟩
  obtain ⟨hne, hfor⟩ := analyze_entries_rate es a h r hr
  have hlen : 0 < es.length := List.length_pos.mpr hne
  have hle : (es.filter (fun e => e.parsed)).length ≤ es.length :=
    List.length_filter_le _ _
  have h0 : (0 : ℚ) < (es.length : ℚ) := by exact_mod_cast hlen
  have hcast : ((es.filter (fun e => e.parsed)).length : ℚ) ≤ (es.length : ℚ) := by
    exact_mod_cast hle
  have hnn : (0 : ℚ) ≤ ((es.filter (fun e => e.parsed)).length : ℚ) := by positivity
  refine ⟨hfor, ?_, ?_⟩
  · rw [hfor]
    positivity
  · rw [hfor]
    have hdiv : ((es.filter (fun e => e.parsed)).length : ℚ) / (es.length : ℚ) ≤ 1 :=
      (div_le_one h0).mpr hcast
    calc ((es.filter (fun e => e.parsed)).length : ℚ) / (es.length : ℚ) * 100
        ≤ 1 * 100 := by
          exact mul_le_mul_of_nonneg_right hdiv (by norm_num)
      _ = 100 := by norm_num

/-- Claim C2, counterexample: the empty batch does not produce a result
with zero-valued total_entries, parsed_entries and parse_rate fields — it
produces the empty dict, in which all three keys are absent. -/
theorem claim_C2_counterexample :
    analyze_entries [] = Except.ok {} ∧
    ({} : AnalysisResult).total_entries = none ∧
    ({} : AnalysisResult).parsed_entries = none ∧
    ({} : AnalysisResult).parse_rate = none :=
  ⟨rfl, rfl, rfl, rfl⟩

/-- The analysis record of the single-entry witness batch. -/
def aW2 : AnalysisResult :=
  { total_entries := some 1, parsed_entries := some 1,
    parse_rate := some ((1 : ℚ) / (1 : ℚ) * 100),
    top_ips := some [], unique_ips := some 0,
    status_codes := some [(503, 1)], http_methods := some [], top_paths := some [] }

/-- Claim C2, witness: on a one-entry batch the produced parse_rate obeys
the amended formula and bounds. -/
theorem claim_C2_witness :
    analyze_entries [e503] = Except.ok aW2 ∧
    aW2.parse_rate = some ((1 : ℚ) / (1 : ℚ) * 100) ∧
    ((1 : ℚ) / (1 : ℚ) * 100 =
        ((([e503] : List Entry).filter (fun e => e.parsed)).length : ℚ) /
          (([e503] : List Entry).length : ℚ) * 100 ∧
      0 ≤ (1 : ℚ) / (1 : ℚ) * 100 ∧ (1 : ℚ) / (1 : ℚ) * 100 ≤ 100) :=
  ⟨rfl, rfl, claim_C2_amended.2 [e503] aW2 rfl _ rfl⟩

/-- Claim C9: refuted by the code.  Both example lines parse — one with a
timezone-aware timestamp, one with a naive timestamp — yet analyze_entries
on the two-entry batch raises a TypeError: Python min and max compare the
two timestamp kinds, and nothing guards or catches the comparison, so the
function is not total on well-formed parsed content. -/
theorem claim_C9_bug :
    (parse_log_line ex3 AUTO).parsed = true ∧
    (parse_log_line exCustom AUTO).parsed = true ∧
    (parse_log_line ex3 AUTO).timestamp = some (some ⟨2024, 10, 10, 13, 55, 36, 0, some (-25200)⟩) ∧
    (parse_log_line exCustom AUTO).timestamp = some (some ⟨2024, 10, 10, 13, 55, 36, 0, none⟩) ∧
    analyze_entries mixedBatch = Except.error tzTypeError :=
  ⟨rfl, rfl, rfl, rfl, rfl⟩

/-!
Counter and most_common: permutation, sortedness and stability of the
count-descending insertion sort, and the first-appearance structure of the
deduplication.
-/

theorem mem_dedupFirst [DecidableEq α] {a : α} : ∀ {l : List α}, a ∈ dedupFirst l ↔ a ∈ l := by
  intro l
  induction l with
  | nil => simp [dedupFirst]
  | cons x xs ih =>
    simp only [dedupFirst, List.mem_cons, List.mem_filter, ih]
    constructor
    · rintro (rfl | ⟨h, _⟩)
      · exact Or.inl rfl
      · exact Or.inr h
    · rintro (rfl | h)
      · exact Or.inl rfl
      · by_cases hax : a = x
        · exact Or.inl hax
        · exact Or.inr ⟨h, by simpa using hax⟩

theorem dedupFirst_nodup [DecidableEq α] : ∀ (l : List α), (dedupFirst l).Nodup := by
  intro l
  induction l with
  | nil => simp [dedupFirst]
  | cons x xs ih =>
    simp only [dedupFirst, List.nodup_cons]
    refine ⟨fun hx => ?_, ih.filter _⟩
    have := (List.mem_filter.mp hx).2
    simp at this

theorem dedupFirst_pairwise_firstIdx [DecidableEq α] :
    ∀ (l : List α), (dedupFirst l).Pairwise (fun a b => firstIdx a l < firstIdx b l) := by
  intro l
  induction l with
  | nil => simp [dedupFirst]
  | cons x xs ih =>
    simp only [dedupFirst]
    refine List.Pairwise.cons ?_ ?_
    · intro b hb
      have hmem := List.mem_filter.mp hb
      have hbx : b ≠ x := by simpa using hmem.2
      rw [show firstIdx x (x :: xs) = 0 from by simp [firstIdx]]
      rw [show firstIdx b (x :: xs) = firstIdx b xs + 1 from by simp [firstIdx, Ne.symm hbx]]
      omega
    · refine List.Pairwise.imp_of_mem ?_ (List.Pairwise.filter _ ih)
      intro a b ha hb hR
      have hax : a ≠ x := by simpa using (List.mem_filter.mp ha).2
      have hbx : b ≠ x := by simpa using (List.mem_filter.mp hb).2
      rw [show firstIdx a (x :: xs) = firstIdx a xs + 1 from by simp [firstIdx, Ne.symm hax]]
      rw [show firstIdx b (x :: xs) = firstIdx b xs + 1 from by simp [firstIdx, Ne.symm hbx]]
      omega

theorem insertCD_perm (cnt : α → Nat) (x : α) (l : List α) :
    List.Perm (insertCD cnt x l) (x :: l) := by
  induction l with
  | nil => exact List.Perm.refl _
  | cons y ys ih =>
    unfold insertCD
    split
    · exact List.Perm.refl _
    · exact (List.Perm.cons y ih).trans (List.Perm.swap x y ys)

theorem sortCD_perm (cnt : α → Nat) : ∀ (l : List α), List.Perm (sortCD cnt l) l := by
  intro l
  induction l with
  | nil => exact List.Perm.refl _
  | cons x xs ih => exact (insertCD_perm cnt x _).trans (List.Perm.cons x ih)

theorem pairwise_insertCD (cnt : α → Nat) (E : α → α → Prop) (x : α) (l : List α)
    (hl : l.Pairwise (rankLe cnt E)) (hx : ∀ y ∈ l, E x y) :
    (insertCD cnt x l).Pairwise (rankLe cnt E) := by
  induction l with
  | nil => simp [insertCD, rankLe]
  | cons y ys ih =>
    obtain ⟨hy, hys⟩ := List.pairwise_cons.mp hl
    unfold insertCD
    split
    · next hcnt =>
      refine List.Pairwise.cons ?_ hl
      intro b hb
      rcases List.mem_cons.mp hb with rfl | hbys
      · exact ⟨hcnt, fun _ => hx b (List.mem_cons_self _ _)⟩
      · have hyb := hy b hbys
        exact ⟨le_trans hyb.1 hcnt, fun _ => hx b (List.mem_cons_of_mem _ hbys)⟩
    · next hcnt =>
      refine List.Pairwise.cons ?_ (ih hys (fun b hb => hx b (List.mem_cons_of_mem _ hb)))
      intro b hb
      have hmem := (insertCD_perm cnt x ys).mem_iff.mp hb
      rcases List.mem_cons.mp hmem with rfl | hbys
      · have hlt : cnt b < cnt y := Nat.lt_of_not_le hcnt
        exact ⟨le_of_lt hlt, fun heq => absurd heq.symm (Nat.ne_of_lt hlt)⟩
      · exact hy b hbys

theorem pairwise_sortCD (cnt : α → Nat) (E : α → α → Prop) :
    ∀ (l : List α), l.Pairwise E → (sortCD cnt l).Pairwise (rankLe cnt E) := by
  intro l
  induction l with
  | nil => simp [sortCD]
  | cons x xs ih =>
    intro hl
    obtain ⟨hx, hxs⟩ := List.pairwise_cons.mp hl
    exact pairwise_insertCD cnt E x _ (ih hxs)
      (fun y hy => hx y ((sortCD_perm cnt xs).mem_iff.mp hy))

theorem mostCommon_topTable (xs : List String) : TopTable xs (mostCommon xs (some 10)) := by
  unfold mostCommon TopTable
  dsimp only
  have hperm : List.Perm (sortCD (fun y => xs.count y) (dedupFirst xs)) (dedupFirst xs) :=
    sortCD_perm _ _
  have hnds : (sortCD (fun y => xs.count y) (dedupFirst xs)).Nodup :=
    hperm.nodup_iff.mpr (dedupFirst_nodup xs)
  have hpw : (sortCD (fun y => xs.count y) (dedupFirst xs)).Pairwise
      (rankLe (fun y => xs.count y) (fun a b => firstIdx a xs < firstIdx b xs)) :=
    pairwise_sortCD _ _ _ (dedupFirst_pairwise_firstIdx xs)
  refine ⟨?_, ?_, ?_, ?_, ?_, ?_⟩
  · simp [List.length_take]
  · simp [List.length_take, hperm.length_eq]
  · intro p hp
    obtain ⟨y, hy, rfl⟩ := List.mem_map.mp hp
    have hysort := List.mem_of_mem_take hy
    have hykeys := hperm.mem_iff.mp hysort
    exact ⟨mem_dedupFirst.mp hykeys, rfl⟩
  · rw [show (((sortCD (fun y => xs.count y) (dedupFirst xs)).take 10).map
        (fun y => (y, xs.count y))).map Prod.fst =
        ((sortCD (fun y => xs.count y) (dedupFirst xs)).take 10).map
          (fun y => y) from by rw [List.map_map]; rfl]
    rw [List.map_id']
    exact hnds.sublist (List.take_sublist _ _)
  · rw [List.pairwise_map]
    exact (hpw.take (n := 10)).imp (fun h => ⟨h.1, h.2⟩)
  · intro x hx hnmem p hp
    obtain ⟨y, hy, rfl⟩ := List.mem_map.mp hp
    have hxsorted : x ∈ sortCD (fun y => xs.count y) (dedupFirst xs) :=
      hperm.mem_iff.mpr (mem_dedupFirst.mpr hx)
    have hxdrop : x ∈ (sortCD (fun y => xs.count y) (dedupFirst xs)).drop 10 := by
      have hx2 : x ∈ (sortCD (fun y => xs.count y) (dedupFirst xs)).take 10 ++
          (sortCD (fun y => xs.count y) (dedupFirst xs)).drop 10 := by
        rw [List.take_append_drop]
        exact hxsorted
      rcases List.mem_append.mp hx2 with h | h
      · exact absurd
          (List.mem_map.mpr ⟨(x, xs.count x), List.mem_map.mpr ⟨x, h, rfl⟩, rfl⟩) hnmem
      · exact h
    have hsplit := hpw
    rw [← List.take_append_drop 10 (sortCD (fun y => xs.count y) (dedupFirst xs))] at hsplit
    have := (List.pairwise_append.mp hsplit).2.2 y hy x hxdrop
    exact this.1

theorem analyze_entries_tops (es : List Entry) (a : AnalysisResult)
    (h : analyze_entries es = .ok a) :
    (a.top_ips = none ∨ a.top_ips = some (mostCommon (ipsOf es) (some 10))) ∧
    (a.top_paths = none ∨ a.top_paths = some (mostCommon (pathsOf es) (some 10))) := by
  unfold analyze_entries at h
  split at h
  · simp only [Except.ok.injEq] at h
    subst h
    exact ⟨Or.inl rfl, Or.inl rfl⟩
  · dsimp only at h
    split at h
    · simp only [Except.ok.injEq] at h
      subst h
      exact ⟨Or.inl rfl, Or.inl rfl⟩
    · split at h
      · simp only [Except.ok.injEq] at h
        subst h
        constructor
        · right
          split <;> rfl
        · right
          split <;> rfl
      · split at h
        · cases h
        · split at h
          · cases h
          · split at h
            · cases h
            · simp only [Except.ok.injEq] at h
              subst h
              constructor
              · right
                split <;> rfl
              · right
                split <;> rfl

/-- Claim C8: whenever analyze_entries produces a top_ips (or top_paths)
table, the table has at most ten rows — exactly ten when ten distinct
values exist — whose keys are values of the parsed entries with their
exact counts, sorted by descending frequency with ties broken by order of
first appearance in the input sequence, and no excluded value is more
frequent than an included one. -/
theorem claim_C8 (es : List Entry) (a : AnalysisResult)
    (h : analyze_entries es = .ok a) :
    (∀ l, a.top_ips = some l → TopTable (ipsOf es) l) ∧
    (∀ l, a.top_paths = some l → TopTable (pathsOf es) l) := by
  obtain ⟨hips, hpaths⟩ := analyze_entries_tops es a h
  constructor
  · intro l hl
    rcases hips with hnone | hsome
    · rw [hnone] at hl
      cases hl
    · rw [hsome] at hl
      simp only [Option.some.injEq] at hl
      subst hl
      exact mostCommon_topTable _
  · intro l hl
    rcases hpaths with hnone | hsome
    · rw [hnone] at hl
      cases hl
    · rw [hsome] at hl
      simp only [Option.some.injEq] at hl
      subst hl
      exact mostCommon_topTable _

/-- Claim C8, witness: on a three-entry batch with a repeated ip, the
produced top_ips table is exactly the two rows in count order and
satisfies the table specification. -/
theorem claim_C8_witness :
    analyze_entries esW8 = Except.ok aW8 ∧
    aW8.top_ips = some [("1.1.1.1", 2), ("2.2.2.2", 1)] ∧
    TopTable (ipsOf esW8) [("1.1.1.1", 2), ("2.2.2.2", 1)] :=
  ⟨rfl, rfl, (claim_C8 esW8 aW8 rfl).1 _ rfl⟩

end LogAnalyzer
